import Mathlib

/-!
Verification of the northharbor-ai financial-computation pipeline
(`backend/pipelines`): a shallow embedding, over `ℚ`, of the normalize /
derive / monte_carlo / backtest stages and of the orchestrating runner,
together with theorems settling the specification's claims about them.

Conventions of the embedding:
* Python floats become `ℚ`; `round(x, n)` becomes `py_round` (round half to
  even on exact rationals).
* NumPy's seeded Gaussian generator is modelled by an explicit parameter
  `znorm : ℤ → ℕ → ℚ` giving the standard-normal draw stream of each seed;
  `default_rng(seed).normal(mean, std, ...)` draws become
  `mean + std * znorm seed index`.  All definitions are parametric in
  `znorm`, which carries exactly the determinism the code relies on: a
  draw is a pure function of (seed, position).
* Python dicts keyed by `f"age_<age>"` become functions `ℤ → Option ℚ`.
* Fallible code paths are noted at the definition that models them.
-/

/-! ## Python-style numeric helpers -/

/-- Round half to even on the integer grid: the rounding used by Python's
built-in `round` (and NumPy), applied here to exact rationals. -/
def round_half_even (x : ℚ) : ℤ :=
  if x - (⌊x⌋ : ℚ) < 1/2 then ⌊x⌋
  else if 1/2 < x - (⌊x⌋ : ℚ) then ⌊x⌋ + 1
  else if ⌊x⌋ % 2 = 0 then ⌊x⌋ else ⌊x⌋ + 1

/-- Python's `round(x, d)`: round half to even at `d` decimal digits. -/
def py_round (x : ℚ) (d : ℕ) : ℚ :=
  (round_half_even (x * 10 ^ d) : ℚ) / 10 ^ d

/-- Python's `int(x)` on a float: truncation toward zero. -/
def py_int (q : ℚ) : ℤ :=
  if 0 ≤ q then ⌊q⌋ else ⌈q⌉

theorem round_half_even_le_succ_floor (x : ℚ) : round_half_even x ≤ ⌊x⌋ + 1 := by
  unfold round_half_even
  split_ifs <;> omega

theorem floor_le_round_half_even (x : ℚ) : ⌊x⌋ ≤ round_half_even x := by
  unfold round_half_even
  split_ifs <;> omega

theorem round_half_even_mono {x y : ℚ} (h : x ≤ y) :
    round_half_even x ≤ round_half_even y := by
  rcases lt_or_le ⌊x⌋ ⌊y⌋ with hf | hf
  · calc round_half_even x ≤ ⌊x⌋ + 1 := round_half_even_le_succ_floor x
      _ ≤ ⌊y⌋ := by omega
      _ ≤ round_half_even y := floor_le_round_half_even y
  · have hfe : ⌊x⌋ = ⌊y⌋ := le_antisymm (Int.floor_le_floor h) hf
    unfold round_half_even
    rw [hfe]
    have hfrac : x - (⌊y⌋ : ℚ) ≤ y - (⌊y⌋ : ℚ) := by linarith
    split_ifs <;> first | omega | linarith

theorem round_half_even_intCast (n : ℤ) : round_half_even (n : ℚ) = n := by
  unfold round_half_even
  rw [Int.floor_intCast]
  norm_num

theorem py_round_mono {x y : ℚ} (d : ℕ) (h : x ≤ y) :
    py_round x d ≤ py_round y d := by
  unfold py_round
  have hp : (0:ℚ) < 10 ^ d := by positivity
  have hm := round_half_even_mono (mul_le_mul_of_nonneg_right h (le_of_lt hp))
  exact div_le_div_of_nonneg_right (by exact_mod_cast hm) hp.le

theorem py_round_zero (d : ℕ) : py_round 0 d = 0 := by
  unfold py_round
  rw [zero_mul, (by norm_num : ((0:ℚ)) = ((0:ℤ) : ℚ)), round_half_even_intCast]
  norm_num

theorem py_round_one (d : ℕ) : py_round 1 d = 1 := by
  unfold py_round
  rw [one_mul, (by push_cast; ring : ((10:ℚ) ^ d) = (((10:ℤ) ^ d : ℤ) : ℚ)),
    round_half_even_intCast]
  push_cast
  field_simp

theorem py_round_nonneg {x : ℚ} (d : ℕ) (h : 0 ≤ x) : 0 ≤ py_round x d := by
  calc (0:ℚ) = py_round 0 d := (py_round_zero d).symm
    _ ≤ py_round x d := py_round_mono d h

theorem py_round_le_one {x : ℚ} (d : ℕ) (h : x ≤ 1) : py_round x d ≤ 1 := by
  calc py_round x d ≤ py_round 1 d := py_round_mono d h
    _ = 1 := py_round_one d

/-! ## NumPy percentile (linear interpolation on the sorted data) -/

/-- Linear interpolation of a sorted sample at fractional rank `h`,
the kernel of `np.percentile` with the default interpolation. -/
def quantile_at (s : List ℚ) (h : ℚ) : ℚ :=
  s.getD (⌊h⌋).toNat 0 +
    (h - ((⌊h⌋).toNat : ℚ)) *
      (s.getD (min ((⌊h⌋).toNat + 1) (s.length - 1)) 0 - s.getD (⌊h⌋).toNat 0)

/-- Model of `np.percentile(l, q)` (default linear interpolation): sort the
sample ascending and interpolate at rank `q / 100 * (n - 1)`.  NumPy raises
on an empty sample; the embedding is total and claims about it carry a
nonempty hypothesis. -/
def np_percentile (l : List ℚ) (q : ℚ) : ℚ :=
  quantile_at (l.insertionSort (· ≤ ·)) (q / 100 * ((l.length : ℚ) - 1))

theorem sorted_getD_mono {s : List ℚ} (hs : s.Sorted (· ≤ ·))
    {i j : ℕ} (hij : i ≤ j) (hj : j < s.length) :
    s.getD i 0 ≤ s.getD j 0 := by
  have hi : i < s.length := lt_of_le_of_lt hij hj
  rw [s.getD_eq_getElem 0 hi, s.getD_eq_getElem 0 hj]
  rcases eq_or_lt_of_le hij with rfl | hlt
  · exact le_refl _
  · exact List.pairwise_iff_getElem.mp hs i j hi hj hlt

theorem quantile_at_mono {s : List ℚ} (hs : s.Sorted (· ≤ ·))
    {h1 h2 : ℚ} (h10 : 0 ≤ h1) (h12 : h1 ≤ h2)
    (h2n : h2 ≤ (s.length : ℚ) - 1) :
    quantile_at s h1 ≤ quantile_at s h2 := by
  have h20 : 0 ≤ h2 := le_trans h10 h12
  have h1n : h1 ≤ (s.length : ℚ) - 1 := le_trans h12 h2n
  have hn1 : (1:ℚ) ≤ (s.length : ℚ) := by linarith
  have hnpos : 0 < s.length := by exact_mod_cast lt_of_lt_of_le zero_lt_one hn1
  -- floor indices, their casts and bounds
  have hf1 : (0:ℤ) ≤ ⌊h1⌋ := Int.floor_nonneg.mpr h10
  have hf2 : (0:ℤ) ≤ ⌊h2⌋ := Int.floor_nonneg.mpr h20
  have hc1 : (((⌊h1⌋).toNat : ℕ) : ℚ) = ((⌊h1⌋ : ℤ) : ℚ) := by
    exact_mod_cast congrArg (fun z : ℤ => (z : ℚ)) (Int.toNat_of_nonneg hf1)
  have hc2 : (((⌊h2⌋).toNat : ℕ) : ℚ) = ((⌊h2⌋ : ℤ) : ℚ) := by
    exact_mod_cast congrArg (fun z : ℤ => (z : ℚ)) (Int.toNat_of_nonneg hf2)
  have hlo1 : (((⌊h1⌋).toNat : ℕ) : ℚ) ≤ h1 := by rw [hc1]; exact Int.floor_le h1
  have hlo2 : (((⌊h2⌋).toNat : ℕ) : ℚ) ≤ h2 := by rw [hc2]; exact Int.floor_le h2
  have hup1 : h1 < (((⌊h1⌋).toNat : ℕ) : ℚ) + 1 := by
    rw [hc1]; exact Int.lt_floor_add_one h1
  -- index bounds in ℕ
  have hidx2 : (⌊h2⌋).toNat ≤ s.length - 1 := by
    have : ⌊h2⌋ ≤ (s.length : ℤ) - 1 := by
      have hcast : ((s.length : ℤ) - 1 : ℤ) = ⌊((s.length : ℚ) - 1)⌋ := by
        rw [show ((s.length : ℚ) - 1) = (((s.length : ℤ) - 1 : ℤ) : ℚ) by push_cast; ring,
          Int.floor_intCast]
      rw [hcast]
      exact Int.floor_le_floor h2n
    omega
  have hidx1 : (⌊h1⌋).toNat ≤ s.length - 1 := by
    have : ⌊h1⌋ ≤ (s.length : ℤ) - 1 := by
      have hcast : ((s.length : ℤ) - 1 : ℤ) = ⌊((s.length : ℚ) - 1)⌋ := by
        rw [show ((s.length : ℚ) - 1) = (((s.length : ℤ) - 1 : ℤ) : ℚ) by push_cast; ring,
          Int.floor_intCast]
      rw [hcast]
      exact Int.floor_le_floor h1n
    omega
  have h12n : (⌊h1⌋).toNat ≤ (⌊h2⌋).toNat :=
    Int.toNat_le_toNat (Int.floor_le_floor h12)
  -- value-level facts about the interpolation endpoints
  have hmin1lt : min ((⌊h1⌋).toNat + 1) (s.length - 1) < s.length := by omega
  have hmin2lt : min ((⌊h2⌋).toNat + 1) (s.length - 1) < s.length := by omega
  have hlohi1 : s.getD (⌊h1⌋).toNat 0 ≤
      s.getD (min ((⌊h1⌋).toNat + 1) (s.length - 1)) 0 :=
    sorted_getD_mono hs (by omega) hmin1lt
  have hlohi2 : s.getD (⌊h2⌋).toNat 0 ≤
      s.getD (min ((⌊h2⌋).toNat + 1) (s.length - 1)) 0 :=
    sorted_getD_mono hs (by omega) hmin2lt
  rcases eq_or_lt_of_le h12n with heq | hlt
  · -- same floor cell: interpolation is monotone in the fractional part
    unfold quantile_at
    rw [← heq]
    have hkey := mul_le_mul_of_nonneg_right
      (sub_le_sub_right h12 (((⌊h1⌋).toNat : ℕ) : ℚ))
      (sub_nonneg.mpr hlohi1)
    linarith
  · -- distinct floor cells: pass through the cell boundary values
    have hub : quantile_at s h1 ≤
        s.getD (min ((⌊h1⌋).toNat + 1) (s.length - 1)) 0 := by
      unfold quantile_at
      have hfr : h1 - (((⌊h1⌋).toNat : ℕ) : ℚ) ≤ 1 := by linarith
      nlinarith [mul_nonneg (sub_nonneg.mpr hfr) (sub_nonneg.mpr hlohi1)]
    have hmid : s.getD (min ((⌊h1⌋).toNat + 1) (s.length - 1)) 0 ≤
        s.getD (⌊h2⌋).toNat 0 := by
      apply sorted_getD_mono hs _ (by omega)
      omega
    have hlb : s.getD (⌊h2⌋).toNat 0 ≤ quantile_at s h2 := by
      unfold quantile_at
      nlinarith [mul_nonneg (sub_nonneg.mpr hlo2) (sub_nonneg.mpr hlohi2)]
    linarith

/-! ## Data model of the normalize and derive stages -/

/-- Flat output record of the normalize stage (the dict returned by
`normalize_inputs` in `backend/pipelines/stages/normalize.py`). -/
structure NormalizedInputs where
  plan_id : String
  birth_year : ℤ
  start_age : ℤ
  retirement_ages : List ℤ
  current_balance : ℚ
  savings_rate_percent : ℚ
  gross_annual_income : ℚ
  retirement_spending_monthly_real : ℚ
  social_security_age_67_monthly : ℚ
  social_security_age_70_monthly : ℚ
  social_security_age_67_annual : ℚ
  social_security_age_70_annual : ℚ
  social_security_claiming_age : ℤ
  return_mean : ℚ
  return_std_dev : ℚ
  inflation_assumption : ℚ
  longevity_age : ℤ
  legacy_floor : ℚ
  required_success_probability : ℚ
  simulation_count : ℕ
deriving DecidableEq, Repr

/-- Per-age record of the derive stage's `withdrawal_analysis` dict. -/
structure WithdrawalEntry where
  projected_balance_real : ℚ
  annual_withdrawal_4_percent : ℚ
  monthly_withdrawal_4_percent : ℚ
  social_security_annual : ℚ
  annual_spending : ℚ
  portfolio_needed_after_ss : ℚ
  effective_withdrawal_rate : ℚ
deriving DecidableEq, Repr

/-- The `social_security` block of the derive stage output. -/
structure SocialSecuritySummary where
  age_67_combined_annual : ℚ
  age_70_combined_annual : ℚ
  claiming_age : ℤ
  claiming_age_combined_annual : ℚ
deriving DecidableEq, Repr

/-- Output of `compute_derived_fields`; the dicts keyed `age_<age>` are
modelled as functions from the age. -/
structure DerivedFields where
  projected_balances_base_case_real : ℤ → Option ℚ
  spending_assumption_monthly_real : ℚ
  withdrawal_analysis : ℤ → Option WithdrawalEntry
  social_security : SocialSecuritySummary

/-! ## Monte Carlo stage (backend/pipelines/stages/monte_carlo.py) -/

/-- Named stress scenario passed to the simulation (the `scenario` string
parameter; `none` at the call sites means the base scenario). -/
inductive Scenario
  | poor_sequence_first_3_years
  | delayed_market_recovery
deriving DecidableEq, Repr

/-- Per-path simulation state: the entries of the `balance` and `failed`
NumPy vectors belonging to one path. -/
structure PathState where
  balance : ℚ
  failed : Bool
deriving DecidableEq, Repr

/-- One iteration of the year loop of `_simulate_retirement_age`, restricted
to one path: subtract `max(annual_spending - ss_annual, 0)`, apply the
year's return, mark the path failed when the balance lands `≤ 0`, and clamp
a negative balance to `0`. -/
def mc_year_update (annual_spending ss_annual : ℚ) (st : PathState) (r : ℚ) :
    PathState :=
  let withdrawal := max (annual_spending - ss_annual) 0
  let b := (st.balance - withdrawal) * (1 + r)
  { balance := if b < 0 then 0 else b
    failed := st.failed || decide (b ≤ 0) }

/-- Elementwise action of one year-loop iteration on the path-state vector;
`p` is the path index of the head of `sts`. -/
def mc_step_year (annual_spending ss_annual : ℚ) (draws : ℕ → ℕ → ℚ) (y : ℕ) :
    ℕ → List PathState → List PathState
  | _, [] => []
  | p, st :: sts =>
      mc_year_update annual_spending ss_annual st (draws p y) ::
        mc_step_year annual_spending ss_annual draws y (p + 1) sts

/-- The `for i in range(years)` loop of `_simulate_retirement_age`, acting
on the vector of path states; `y` is the next year index, the following
argument the number of years still to simulate. -/
def mc_sim_loop (annual_spending ss_annual : ℚ) (draws : ℕ → ℕ → ℚ) :
    ℕ → ℕ → List PathState → List PathState
  | _, 0, sts => sts
  | y, k + 1, sts =>
      mc_sim_loop annual_spending ss_annual draws (y + 1) k
        (mc_step_year annual_spending ss_annual draws y 0 sts)

/-- Draw matrix of the base scenario:
`rng.normal(return_mean, return_std_dev, size=(simulation_count, years))`
on `default_rng(seed)`, row-major. -/
def base_draws (znorm : ℤ → ℕ → ℚ) (seed : ℤ) (mean std : ℚ) (years : ℕ)
    (i j : ℕ) : ℚ :=
  mean + std * znorm seed (i * years + j)

/-- Model of `_scenario_draws`: one row of Gaussian draws from the given
generator, with the scenario's early years capped from above. -/
def scenario_draws (znorm : ℤ → ℕ → ℚ) (name : Scenario) (years : ℕ)
    (seed : ℤ) (mean std : ℚ) : List ℚ :=
  match name with
  | .poor_sequence_first_3_years =>
      (List.range years).map fun j =>
        if j < min 3 years then min (mean + std * znorm seed j) (-(15/100 : ℚ))
        else mean + std * znorm seed j
  | .delayed_market_recovery =>
      (List.range years).map fun j =>
        if j < min 2 years then min (mean + std * znorm seed j) (-(10/100 : ℚ))
        else mean + std * znorm seed j

/-- The full draw matrix of `_simulate_retirement_age` as a function of
(path, year): the base branch is one `(simulation_count, years)` normal
draw from `default_rng(seed)`, while each scenario row `i` is
`_scenario_draws` on its own `default_rng(seed + i)`. -/
def sim_draws (znorm : ℤ → ℕ → ℚ) (scenario : Option Scenario) (seed : ℤ)
    (mean std : ℚ) (years : ℕ) (i j : ℕ) : ℚ :=
  match scenario with
  | none => base_draws znorm seed mean std years i j
  | some sc => (scenario_draws znorm sc years (seed + i) mean std).getD j 0

/-- The `terminal_balance_percentiles_real` block of a simulation result. -/
structure Percentiles where
  p05 : ℚ
  p25 : ℚ
  p50 : ℚ
  p75 : ℚ
  p95 : ℚ
deriving DecidableEq, Repr

/-- Result dict of `_simulate_retirement_age`; the keys absent from the
early (non-positive horizon) return are `Option`s. -/
structure AgeResult where
  retirement_age : ℤ
  scenario : Option Scenario
  starting_balance_real : Option ℚ
  years_simulated : ℤ
  success_probability : ℚ
  terminal_balance_percentiles_real : Option Percentiles
deriving DecidableEq, Repr

/-- Model of `_simulate_retirement_age`: early return for a non-positive
horizon, otherwise the vectorized year loop over the draw matrix followed
by the success mean (rounded to 4 decimals) and terminal-balance
percentiles (rounded to cents). -/
def simulate_retirement_age (znorm : ℤ → ℕ → ℚ)
    (retirement_age : ℤ) (start_balance : ℚ) (return_mean return_std_dev : ℚ)
    (longevity_age : ℤ) (monthly_spending ss_annual legacy_floor : ℚ)
    (simulation_count : ℕ) (seed : ℤ) (scenario : Option Scenario) :
    AgeResult :=
  if longevity_age - retirement_age ≤ 0 then
    { retirement_age := retirement_age
      scenario := scenario
      starting_balance_real := none
      years_simulated := 0
      success_probability := 0
      terminal_balance_percentiles_real := none }
  else
    let years := (longevity_age - retirement_age).toNat
    let draws := sim_draws znorm scenario seed return_mean return_std_dev years
    let annual_spending := monthly_spending * 12
    let final := mc_sim_loop annual_spending ss_annual draws 0 years
      ((List.range simulation_count).map fun _ => ⟨start_balance, false⟩)
    let balances := final.map PathState.balance
    let success := final.map fun st =>
      !st.failed && decide (legacy_floor ≤ st.balance)
    { retirement_age := retirement_age
      scenario := scenario
      starting_balance_real := some (py_round start_balance 2)
      years_simulated := (years : ℤ)
      success_probability :=
        py_round ((success.count true : ℚ) / (simulation_count : ℚ)) 4
      terminal_balance_percentiles_real := some
        { p05 := py_round (np_percentile balances 5) 2
          p25 := py_round (np_percentile balances 25) 2
          p50 := py_round (np_percentile balances 50) 2
          p75 := py_round (np_percentile balances 75) 2
          p95 := py_round (np_percentile balances 95) 2 } }

/-- Claiming-age Social Security benefit as computed inside
`run_monte_carlo` (monte_carlo.py lines 118-124). -/
def mc_ss_annual (inputs : NormalizedInputs) : ℚ :=
  if inputs.social_security_claiming_age ≤ 67 then
    inputs.social_security_age_67_annual
  else if 70 ≤ inputs.social_security_claiming_age then
    inputs.social_security_age_70_annual
  else
    inputs.social_security_age_67_annual +
      (inputs.social_security_age_70_annual -
        inputs.social_security_age_67_annual) *
        (((inputs.social_security_claiming_age : ℚ) - 67) / 3)

/-- One entry of `base_results`: the base-scenario simulation of one
retirement age, seeded `seed + age`, starting from that age's projected
balance (falling back to the current balance). -/
def mc_base_entry (znorm : ℤ → ℕ → ℚ) (inputs : NormalizedInputs)
    (derived : DerivedFields) (seed : ℤ) (age : ℤ) : AgeResult :=
  simulate_retirement_age znorm age
    ((derived.projected_balances_base_case_real age).getD inputs.current_balance)
    inputs.return_mean inputs.return_std_dev inputs.longevity_age
    inputs.retirement_spending_monthly_real
    (if inputs.social_security_claiming_age ≤ age then mc_ss_annual inputs else 0)
    inputs.legacy_floor inputs.simulation_count (seed + age) none

/-- One entry of a sensitivity scenario's result list, seeded
`seed + age + 1000`. -/
def mc_sensitivity_entry (znorm : ℤ → ℕ → ℚ) (inputs : NormalizedInputs)
    (derived : DerivedFields) (seed : ℤ) (sc : Scenario) (age : ℤ) :
    AgeResult :=
  simulate_retirement_age znorm age
    ((derived.projected_balances_base_case_real age).getD inputs.current_balance)
    inputs.return_mean inputs.return_std_dev inputs.longevity_age
    inputs.retirement_spending_monthly_real
    (if inputs.social_security_claiming_age ≤ age then mc_ss_annual inputs else 0)
    inputs.legacy_floor inputs.simulation_count (seed + age + 1000) (some sc)

/-- Strict lexicographic comparison of `(success_probability,
retirement_age)` keys: the order Python's tuple `>` induces in
`max(base_results, key=...)`. -/
def key_lt (a b : ℚ × ℤ) : Prop :=
  a.1 < b.1 ∨ (a.1 = b.1 ∧ a.2 < b.2)

instance : DecidableRel key_lt := fun a b => by
  unfold key_lt; infer_instance

/-- Python's `max(xs, key=...)`: scan left keeping the current best,
replacing it only on a strictly greater key. -/
def py_max_by (key : AgeResult → ℚ × ℤ) (best : AgeResult) :
    List AgeResult → AgeResult
  | [] => best
  | x :: xs => py_max_by key (if key_lt (key best) (key x) then x else best) xs

/-- The key `lambda x: (x["success_probability"], x["retirement_age"])`. -/
def mc_key (r : AgeResult) : ℚ × ℤ := (r.success_probability, r.retirement_age)

/-- The `assessment` block of the Monte Carlo stage output. -/
structure Assessment where
  minimum_success_probability_target : ℚ
  all_retirement_ages_meet_target : Bool
  recommended_retirement_age : ℤ
deriving DecidableEq, Repr

/-- Output dict of `run_monte_carlo`; `sensitivity_results` is the dict
with the two scenario names as keys. -/
structure MonteCarloResults where
  base_results : List AgeResult
  sensitivity_results : Scenario → List AgeResult
  assessment : Assessment

/-- Model of `run_monte_carlo`.  Note `max` on an empty `base_results`
raises `ValueError` in the source; the embedding returns the junk
recommended age `0` there, and claims about the recommendation carry a
nonempty hypothesis. -/
def run_monte_carlo (znorm : ℤ → ℕ → ℚ) (inputs : NormalizedInputs)
    (derived : DerivedFields) (seed : ℤ) : MonteCarloResults :=
  let base_results :=
    inputs.retirement_ages.map (mc_base_entry znorm inputs derived seed)
  { base_results := base_results
    sensitivity_results := fun sc =>
      inputs.retirement_ages.map (mc_sensitivity_entry znorm inputs derived seed sc)
    assessment :=
      { minimum_success_probability_target := inputs.required_success_probability
        all_retirement_ages_meet_target := base_results.all fun r =>
          decide (inputs.required_success_probability ≤ r.success_probability)
        recommended_retirement_age :=
          match base_results with
          | [] => 0
          | x :: xs => (py_max_by mc_key x xs).retirement_age } }

/-! ## Derive stage (backend/pipelines/stages/derive.py) -/

/-- Model of `_projected_balance`: compound `(bal + contribution) * (1 + r)`
once per year, `years` times. -/
def projected_balance (current_balance annual_contribution_real
    annual_return_real : ℚ) : ℕ → ℚ
  | 0 => current_balance
  | n + 1 =>
      (projected_balance current_balance annual_contribution_real
          annual_return_real n + annual_contribution_real) *
        (1 + annual_return_real)

/-- Claiming-age Social Security benefit as computed inside
`compute_derived_fields` (derive.py lines 44-50). -/
def derive_ss_claim_annual (inputs : NormalizedInputs) : ℚ :=
  if inputs.social_security_claiming_age ≤ 67 then
    inputs.social_security_age_67_annual
  else if 70 ≤ inputs.social_security_claiming_age then
    inputs.social_security_age_70_annual
  else
    inputs.social_security_age_67_annual +
      (inputs.social_security_age_70_annual -
        inputs.social_security_age_67_annual) *
        (((inputs.social_security_claiming_age : ℚ) - 67) / 3)

/-- Model of `compute_derived_fields`: projected balances and withdrawal
analysis per candidate retirement age. -/
def compute_derived_fields (inputs : NormalizedInputs) : DerivedFields :=
  let annual_contribution :=
    inputs.gross_annual_income * (inputs.savings_rate_percent / 100)
  let annual_spending := inputs.retirement_spending_monthly_real * 12
  let ss_claim_annual := derive_ss_claim_annual inputs
  let bal := fun age : ℤ =>
    projected_balance inputs.current_balance annual_contribution
      inputs.return_mean (max (age - inputs.start_age) 0).toNat
  { projected_balances_base_case_real := fun age =>
      if age ∈ inputs.retirement_ages then some (py_round (bal age) 2) else none
    spending_assumption_monthly_real :=
      py_round inputs.retirement_spending_monthly_real 2
    withdrawal_analysis := fun age =>
      if age ∈ inputs.retirement_ages then
        let ss_annual :=
          if inputs.social_security_claiming_age ≤ age then ss_claim_annual else 0
        let portfolio_needed := max (annual_spending - ss_annual) 0
        let withdrawal_4pct := bal age * (4/100)
        some
          { projected_balance_real := py_round (bal age) 2
            annual_withdrawal_4_percent := py_round withdrawal_4pct 2
            monthly_withdrawal_4_percent := py_round (withdrawal_4pct / 12) 2
            social_security_annual := py_round ss_annual 2
            annual_spending := py_round annual_spending 2
            portfolio_needed_after_ss := py_round portfolio_needed 2
            effective_withdrawal_rate :=
              py_round (if 0 < bal age then portfolio_needed / bal age else 0) 6 }
      else none
    social_security :=
      { age_67_combined_annual := py_round inputs.social_security_age_67_annual 2
        age_70_combined_annual := py_round inputs.social_security_age_70_annual 2
        claiming_age := inputs.social_security_claiming_age
        claiming_age_combined_annual := py_round ss_claim_annual 2 } }

/-! ## Normalize stage (backend/pipelines/stages/normalize.py) -/

/-- A min/max numeric range (the `NumericRange` pydantic model). -/
structure NumericRange where
  min : ℚ
  max : ℚ
deriving DecidableEq, Repr

/-- Slice of `CanonicalPlanSchema` read by `validate_schema` and
`normalize_inputs`.  A `ProvenanceField` is represented by its (possibly
`None`) `value`; fields typed `ProvenanceField | None` get a second
`Option` layer.  The claiming preference is modelled over integer-valued
inputs; the source additionally parses a leading integer out of string
values before clamping, which is outside the modelled input domain. -/
structure PlanSchema where
  plan_id : String
  owner_id : String
  client_birth_year : Option ℤ
  client_retirement_window : Option NumericRange
  ss_combined_at_67_monthly : Option ℚ
  ss_combined_at_70_monthly : Option ℚ
  ss_claiming_preference : Option (Option ℤ)
  mc_inflation_assumption : Option (Option ℚ)
  mc_return_assumption_real_mean : Option (Option ℚ)
  mc_return_assumption_nominal : Option (Option ℚ)
  mc_horizon_age : Option ℤ
  mc_legacy_floor : Option ℚ
  mc_required_success_rate : Option ℚ
  philosophy_success_probability_target : Option ℚ
  accounts_retirement_balance : Option ℚ
  accounts_employee_contribution_percent : Option (Option ℚ)
  accounts_employer_match_percent : Option (Option ℚ)
  accounts_savings_rate_percent : Option ℚ
  income_current_gross_annual : Option ℚ
  spending_retirement_monthly_real : Option ℚ
deriving Repr

/-- Python's `_pf_val(pf, d)` for a required `ProvenanceField`: its value,
or the default when the value is `None`. -/
def pf_val {α : Type} (value : Option α) (dflt : α) : α := value.getD dflt

/-- Python's `_pf_val(pf, d)` for an optional (`ProvenanceField | None`)
field: both a missing field and a `None` value give the default. -/
def pf_val_opt {α : Type} (field : Option (Option α)) (dflt : α) : α :=
  match field with
  | none => dflt
  | some v => v.getD dflt

/-- Model of `normalize_inputs`.  Notes on fallible paths: on an inverted
retirement window the integer range is empty and the source raises
`IndexError` at `retirement_ages[0]`; the embedding uses `headI` (junk `0`)
there. -/
def normalize_inputs (schema : PlanSchema) : NormalizedInputs :=
  let retirement_ages : List ℤ :=
    match schema.client_retirement_window with
    | some rw =>
        (List.range (py_int rw.max + 1 - py_int rw.min).toNat).map
          (fun k => py_int rw.min + k)
    | none => [65, 66, 67]
  let claiming_age := min (max (pf_val_opt schema.ss_claiming_preference 67) 62) 70
  let ss_67 := pf_val schema.ss_combined_at_67_monthly 0
  let ss_70 := pf_val schema.ss_combined_at_70_monthly 0
  let inflation := pf_val_opt schema.mc_inflation_assumption (25/1000)
  let return_mean :=
    match schema.mc_return_assumption_real_mean.join with
    | some v => v
    | none =>
        match schema.mc_return_assumption_nominal.join with
        | some v => v - inflation
        | none => 55/1000
  let birth_year := pf_val schema.client_birth_year 1970
  let start_age := max (retirement_ages.headI - 5)
    (if birth_year ≠ 0 ∧ 2026 - birth_year ≠ 0 then 2026 - birth_year else 56)
  let employee_contrib :=
    pf_val_opt schema.accounts_employee_contribution_percent 0
  let employer_match := pf_val_opt schema.accounts_employer_match_percent 0
  let legacy_savings_rate := pf_val schema.accounts_savings_rate_percent 0
  let total_savings_rate :=
    if 0 < employee_contrib then employee_contrib + employer_match
    else legacy_savings_rate
  { plan_id := schema.plan_id
    birth_year := birth_year
    start_age := start_age
    retirement_ages := retirement_ages
    current_balance := pf_val schema.accounts_retirement_balance 0
    savings_rate_percent := total_savings_rate
    gross_annual_income := pf_val schema.income_current_gross_annual 0
    retirement_spending_monthly_real :=
      pf_val schema.spending_retirement_monthly_real 0
    social_security_age_67_monthly := ss_67
    social_security_age_70_monthly := ss_70
    social_security_age_67_annual := ss_67 * 12
    social_security_age_70_annual := ss_70 * 12
    social_security_claiming_age := claiming_age
    return_mean := return_mean
    return_std_dev := 11/100
    inflation_assumption := inflation
    longevity_age := pf_val schema.mc_horizon_age 95
    legacy_floor := pf_val schema.mc_legacy_floor 0
    required_success_probability :=
      match schema.mc_required_success_rate with
      | some v =>
          if v ≠ 0 then v
          else pf_val schema.philosophy_success_probability_target (95/100)
      | none => pf_val schema.philosophy_success_probability_target (95/100)
    simulation_count := 10000 }

/-! ## Backtest stage (backend/pipelines/stages/backtest.py) -/

/-- One built-in historical period. -/
structure Period where
  name : String
  label : String
  years : List ℤ
  annual_returns_real : List ℚ
deriving DecidableEq, Repr

/-- The module-level `BUILT_IN_PERIODS` table. -/
def BUILT_IN_PERIODS : List Period :=
  [ { name := "dot_com_crash"
      label := "Dot-Com Crash (2000-2002)"
      years := [2000, 2001, 2002]
      annual_returns_real := [-(91/1000), -(119/1000), -(221/1000)] }
  , { name := "great_financial_crisis"
      label := "Great Financial Crisis (2007-2009)"
      years := [2007, 2008, 2009]
      annual_returns_real := [55/1000, -(370/1000), 265/1000] }
  , { name := "lost_decade"
      label := "Lost Decade (2000-2009)"
      years := [2000, 2001, 2002, 2003, 2004, 2005, 2006, 2007, 2008, 2009]
      annual_returns_real :=
        [-(91/1000), -(119/1000), -(221/1000), 287/1000, 109/1000,
         49/1000, 158/1000, 55/1000, -(370/1000), 265/1000] }
  , { name := "stagflation"
      label := "Stagflation (1973-1974)"
      years := [1973, 1974]
      annual_returns_real := [-(147/1000), -(264/1000)] } ]

/-- Loop state of `simulate_period_outcome`: running balance, depletion
flag and first depletion age. -/
structure BtState where
  balance : ℚ
  depleted : Bool
  depletion_age : Option ℤ
deriving DecidableEq, Repr

/-- Body of one iteration of the `simulate_period_outcome` loop at year
index `i`: withdraw, apply the year's return, record first depletion and
clamp a negative balance to zero. -/
def bt_year_update (annual_spending ss_annual : ℚ) (retirement_age : ℤ)
    (i : ℕ) (st : BtState) (r : ℚ) : BtState :=
  let age := retirement_age + (i : ℤ)
  let withdrawal :=
    max (annual_spending - (if retirement_age ≤ age then ss_annual else 0)) 0
  let b := (st.balance - withdrawal) * (1 + r)
  { balance := if b < 0 then 0 else b
    depleted := st.depleted || decide (b ≤ 0)
    depletion_age :=
      if b ≤ 0 ∧ st.depleted = false then some age else st.depletion_age }

/-- The `for i, year_return in enumerate(modeled_returns)` loop of
`simulate_period_outcome`; `i` is the index of the head of the return
list. -/
def bt_loop (annual_spending ss_annual : ℚ) (retirement_age : ℤ) :
    List ℚ → ℕ → BtState → BtState
  | [], _, st => st
  | r :: rest, i, st =>
      bt_loop annual_spending ss_annual retirement_age rest (i + 1)
        (bt_year_update annual_spending ss_annual retirement_age i st r)

/-- Result dict of `simulate_period_outcome`: the non-positive-horizon
early return carries only `success` and `terminal_balance_real`. -/
inductive PeriodOutcome
  | horizonless (success : Bool) (terminal_balance_real : ℚ)
  | simulated (years_applied : ℕ) (terminal_balance_real : ℚ)
      (success : Bool) (depletion_age : Option ℤ)
deriving DecidableEq, Repr

/-- Success flag of either result shape. -/
def PeriodOutcome.success : PeriodOutcome → Bool
  | .horizonless s _ => s
  | .simulated _ _ s _ => s

/-- Terminal balance of either result shape. -/
def PeriodOutcome.terminal_balance_real : PeriodOutcome → ℚ
  | .horizonless _ t => t
  | .simulated _ t _ _ => t

/-- Model of `simulate_period_outcome`: replay one fixed return sequence,
padding with the mean return when the sequence is shorter than the
horizon. -/
def simulate_period_outcome (start_balance : ℚ)
    (annual_returns_real : List ℚ) (longevity_age retirement_age : ℤ)
    (monthly_spending ss_annual legacy_floor return_mean : ℚ) :
    PeriodOutcome :=
  if longevity_age - retirement_age ≤ 0 then .horizonless false 0
  else
    let years_total := (longevity_age - retirement_age).toNat
    let modeled_returns := annual_returns_real.take years_total ++
      List.replicate (years_total - annual_returns_real.length) return_mean
    let st := bt_loop (monthly_spending * 12) ss_annual retirement_age
      modeled_returns 0 ⟨start_balance, false, none⟩
    .simulated (min annual_returns_real.length years_total)
      (py_round st.balance 2)
      (!st.depleted && decide (legacy_floor ≤ st.balance))
      st.depletion_age

/-- Claiming-age Social Security benefit as computed inside `run_backtest`
(backtest.py lines 108-117). -/
def bt_ss_annual (inputs : NormalizedInputs) : ℚ :=
  if inputs.social_security_claiming_age ≤ 67 then
    inputs.social_security_age_67_annual
  else if 70 ≤ inputs.social_security_claiming_age then
    inputs.social_security_age_70_annual
  else
    inputs.social_security_age_67_annual +
      (inputs.social_security_age_70_annual -
        inputs.social_security_age_67_annual) *
        (((inputs.social_security_claiming_age : ℚ) - 67) / 3)

/-- One entry of `period_comparisons`. -/
structure PeriodComparison where
  name : String
  label : String
  start_year : ℤ
  end_year : ℤ
  years_applied : ℕ
  success : Bool
  success_as_probability : ℚ
  delta_success_vs_baseline : ℚ
  terminal_balance_real : ℚ
  delta_terminal_vs_baseline_p50 : ℚ
  depletion_age : Option ℤ
deriving DecidableEq, Repr

/-- Output of `run_backtest`. -/
structure BacktestResults where
  retirement_age : ℤ
  baseline_success : ℚ
  baseline_p50 : ℚ
  period_comparisons : List PeriodComparison

/-- Model of `run_backtest`: replay every built-in period at the
recommended retirement age.  When a period outcome took the
non-positive-horizon early return, the source raises `KeyError` reading
`years_applied`; the embedding fills junk values there. -/
def run_backtest (inputs : NormalizedInputs) (derived : DerivedFields)
    (mc_results : MonteCarloResults) : BacktestResults :=
  let recommended_age := mc_results.assessment.recommended_retirement_age
  let start_balance :=
    (derived.projected_balances_base_case_real recommended_age).getD
      inputs.current_balance
  let baseline_row :=
    mc_results.base_results.find? (fun r => r.retirement_age == recommended_age)
  let baseline_success :=
    match baseline_row with
    | some r => r.success_probability
    | none => 0
  let baseline_p50 :=
    match baseline_row with
    | some r =>
        match r.terminal_balance_percentiles_real with
        | some p => p.p50
        | none => 0
    | none => 0
  let ss_annual := bt_ss_annual inputs
  let ss_eff :=
    if inputs.social_security_claiming_age ≤ recommended_age then ss_annual
    else 0
  { retirement_age := recommended_age
    baseline_success := baseline_success
    baseline_p50 := baseline_p50
    period_comparisons := BUILT_IN_PERIODS.map fun period =>
      let outcome := simulate_period_outcome start_balance
        period.annual_returns_real inputs.longevity_age recommended_age
        inputs.retirement_spending_monthly_real ss_eff inputs.legacy_floor
        inputs.return_mean
      let success_prob : ℚ := if outcome.success then 1 else 0
      { name := period.name
        label := period.label
        start_year := period.years.headI
        end_year := period.years.getLastD 0
        years_applied :=
          match outcome with
          | .simulated ya _ _ _ => ya
          | .horizonless _ _ => 0
        success := outcome.success
        success_as_probability := success_prob
        delta_success_vs_baseline := py_round (success_prob - baseline_success) 4
        terminal_balance_real := outcome.terminal_balance_real
        delta_terminal_vs_baseline_p50 :=
          py_round (outcome.terminal_balance_real - baseline_p50) 2
        depletion_age :=
          match outcome with
          | .simulated _ _ _ da => da
          | .horizonless _ _ => none } }

/-! ## Pipeline runner (backend/pipelines/runner.py and contracts.py) -/

/-- Stage identifiers (the `PipelineStage` enum of contracts.py). -/
inductive PipelineStage
  | validate
  | normalize
  | derive
  | monte_carlo
  | backtest
  | what_if
  | recommend
  | tables
  | charts
deriving DecidableEq, Repr

/-- The fixed `stage_sequence` list of `run_pipeline`. -/
def stage_sequence : List PipelineStage :=
  [.validate, .normalize, .derive, .monte_carlo, .backtest,
   .what_if, .recommend, .tables, .charts]

/-- Status literals of `StageResult`. -/
inductive StageStatus
  | success
  | skipped
  | failed
deriving DecidableEq, Repr

/-- Model of `StageResult` (contracts.py): stage, status, wall-clock
duration and error messages.  `artifact_ids` is never set by the runner
and is omitted. -/
structure StageResult where
  stage : PipelineStage
  status : StageStatus
  duration_ms : ℕ
  errors : List String
deriving DecidableEq, Repr

/-- The stage loop of `run_pipeline` (runner.py lines 65-146), parametric
in the per-stage computations.  `impl k outputs` models the dispatch on
`stage_key` over the accumulated outputs dict (an `.error` models an
exception caught by the `except` block); `valid_of` / `errors_of` read the
`valid` / `errors` entries of the validation result; `dur` models the
wall-clock duration measurement.  Returns the stage results, the final
outputs dict and the list of stages that were executed. -/
def run_stage_loop {V : Type}
    (impl : PipelineStage → (PipelineStage → Option V) → Except String V)
    (valid_of : V → Bool) (errors_of : V → List String)
    (requested : List PipelineStage) (dur : PipelineStage → ℕ) :
    List PipelineStage → (PipelineStage → Option V) →
    List StageResult × (PipelineStage → Option V) × List PipelineStage
  | [], outputs => ([], outputs, [])
  | k :: rest, outputs =>
      if k ∈ requested then
        match impl k outputs with
        | .error e => ([⟨k, .failed, dur k, [e]⟩], outputs, [k])
        | .ok v =>
            let outputs' := fun s => if s = k then some v else outputs s
            if k = .validate ∧ valid_of v = false then
              ([⟨k, .failed, dur k, errors_of v⟩], outputs', [k])
            else
              let r := run_stage_loop impl valid_of errors_of requested dur
                rest outputs'
              (⟨k, .success, dur k, []⟩ :: r.1, r.2.1, k :: r.2.2)
      else
        let r := run_stage_loop impl valid_of errors_of requested dur
          rest outputs
        (⟨k, .skipped, 0, []⟩ :: r.1, r.2.1, r.2.2)

/-- Model of `PipelineRequest` (the fields the runner reads). -/
structure PipelineRequest where
  plan_id : String
  owner_id : String
  schema_snapshot_id : String
  stages : List PipelineStage
  seed : ℤ
deriving DecidableEq, Repr

/-- Sources of nondeterminism in one `run_pipeline` invocation: the fresh
`uuid4()` pipeline id, the two `datetime.now` readings and the per-stage
wall-clock durations. -/
structure RunnerEnv where
  uuid : String
  now_start : ℤ
  now_end : ℤ
  dur : PipelineStage → ℕ

/-- Model of `PipelineResult` over an abstract stage-output type:
identity fields, timestamps, per-stage results, the accumulated outputs
dict (from which the `PipelineOutputs` bundle is projected) and the
extracted `metrics`. -/
structure PipelineResultM (V M : Type) where
  pipeline_id : String
  plan_id : String
  owner_id : String
  schema_snapshot_id : String
  started_at : ℤ
  completed_at : ℤ
  stages : List StageResult
  outputs : PipelineStage → Option V
  metrics : M

/-- Model of `run_pipeline`: run the stage loop and assemble the result.
The stage computations (`impl`), validation accessors and metrics
extraction (`_build_metrics`) are explicit pure parameters — in the source
they are pure functions of the schema snapshot and the request seed —
while `env` carries the per-invocation nondeterminism (`uuid.uuid4()`,
`datetime.now(timezone.utc)`, `time.monotonic()` durations). -/
def run_pipeline {V M : Type}
    (impl : PipelineStage → (PipelineStage → Option V) → Except String V)
    (valid_of : V → Bool) (errors_of : V → List String)
    (metrics_of : (PipelineStage → Option V) → M)
    (request : PipelineRequest) (env : RunnerEnv) : PipelineResultM V M :=
  let r := run_stage_loop impl valid_of errors_of request.stages env.dur
    stage_sequence (fun _ => none)
  { pipeline_id := env.uuid
    plan_id := request.plan_id
    owner_id := request.owner_id
    schema_snapshot_id := request.schema_snapshot_id
    started_at := env.now_start
    completed_at := env.now_end
    stages := r.1
    outputs := r.2.1
    metrics := metrics_of r.2.1 }

/-! ## Witness fixtures -/

/-- Degenerate draw stream (every standard-normal draw is `0`), used to
instantiate the `znorm` parameter in concrete witnesses. -/
def znorm_zero : ℤ → ℕ → ℚ := fun _ _ => 0

/-- Concrete normalized inputs (the worked example of the specification,
with a small path count so that witnesses can evaluate). -/
def sample_inputs : NormalizedInputs :=
  { plan_id := "plan-1"
    birth_year := 1970
    start_age := 60
    retirement_ages := [65, 66, 67]
    current_balance := 750000
    savings_rate_percent := 10
    gross_annual_income := 120000
    retirement_spending_monthly_real := 9000
    social_security_age_67_monthly := 4200
    social_security_age_70_monthly := 5200
    social_security_age_67_annual := 50400
    social_security_age_70_annual := 62400
    social_security_claiming_age := 68
    return_mean := 55/1000
    return_std_dev := 11/100
    inflation_assumption := 25/1000
    longevity_age := 95
    legacy_floor := 0
    required_success_probability := 95/100
    simulation_count := 2 }

/-- Derived fields of the sample inputs. -/
def sample_derived : DerivedFields := compute_derived_fields sample_inputs

/-! ## C6: claiming-age interpolation of the Social Security benefit -/

/-- C6: the Social Security annual benefit used by the computation stages
equals the combined amount at 67 exactly when the claiming age is 67 or
below, the combined amount at 70 exactly when it is 70, and for claiming
ages 68 and 69 the linear interpolation between the two, which is strictly
between the two endpoint amounts when they differ; and the derivation,
Monte Carlo and backtest engines compute the same value. -/
theorem ss_benefit_claiming_age_interpolation (I : NormalizedInputs) :
    (derive_ss_claim_annual I = mc_ss_annual I ∧
      bt_ss_annual I = mc_ss_annual I) ∧
    (I.social_security_claiming_age ≤ 67 →
      mc_ss_annual I = I.social_security_age_67_annual) ∧
    (I.social_security_claiming_age = 70 →
      mc_ss_annual I = I.social_security_age_70_annual) ∧
    ((I.social_security_claiming_age = 68 ∨
        I.social_security_claiming_age = 69) →
      mc_ss_annual I = I.social_security_age_67_annual +
        (I.social_security_age_70_annual - I.social_security_age_67_annual) *
          (((I.social_security_claiming_age : ℚ) - 67) / 3) ∧
      (I.social_security_age_67_annual ≠ I.social_security_age_70_annual →
        min I.social_security_age_67_annual I.social_security_age_70_annual <
            mc_ss_annual I ∧
          mc_ss_annual I <
            max I.social_security_age_67_annual
              I.social_security_age_70_annual)) := by
  refine ⟨⟨rfl, rfl⟩, ?_, ?_, ?_⟩
  · intro h
    unfold mc_ss_annual
    rw [if_pos h]
  · intro h
    unfold mc_ss_annual
    rw [if_neg (by omega), if_pos (by omega)]
  · intro h
    have h67 : ¬ I.social_security_claiming_age ≤ 67 := by omega
    have h70 : ¬ 70 ≤ I.social_security_claiming_age := by omega
    unfold mc_ss_annual
    rw [if_neg h67, if_neg h70]
    refine ⟨rfl, ?_⟩
    intro hne
    have hfrac : (((I.social_security_claiming_age : ℚ) - 67) / 3) = 1/3 ∨
        (((I.social_security_claiming_age : ℚ) - 67) / 3) = 2/3 := by
      rcases h with h | h <;> rw [h] <;> norm_num
    rcases lt_or_gt_of_ne hne with hab | hab
    · rw [min_eq_left hab.le, max_eq_right hab.le]
      rcases hfrac with hf | hf <;> rw [hf] <;> constructor <;> linarith
    · rw [min_eq_right hab.le, max_eq_left hab.le]
      rcases hfrac with hf | hf <;> rw [hf] <;> constructor <;> linarith

/-- Witness for C6 at the sample inputs (claiming age 68, distinct
endpoint amounts): the benefit is the interpolated value, strictly between
the endpoints. -/
theorem ss_benefit_claiming_age_interpolation_witness :
    (sample_inputs.social_security_claiming_age = 68 ∨
      sample_inputs.social_security_claiming_age = 69) ∧
    mc_ss_annual sample_inputs =
      sample_inputs.social_security_age_67_annual +
        (sample_inputs.social_security_age_70_annual -
          sample_inputs.social_security_age_67_annual) *
          (((sample_inputs.social_security_claiming_age : ℚ) - 67) / 3) ∧
    min sample_inputs.social_security_age_67_annual
        sample_inputs.social_security_age_70_annual < mc_ss_annual sample_inputs ∧
    mc_ss_annual sample_inputs <
      max sample_inputs.social_security_age_67_annual
        sample_inputs.social_security_age_70_annual := by
  have h := (ss_benefit_claiming_age_interpolation sample_inputs).2.2.2
    (Or.inl (by decide))
  exact ⟨Or.inl (by decide), h.1, h.2 (by decide)⟩

/-! ## C9: total savings rate precedence in the normalizer -/

/-- C9 (amended): the normalizer's total savings rate equals
`employee_contribution_percent + employer_match_percent` whenever the
employee component is strictly positive, and equals the legacy
`savings_rate_percent` field otherwise (in particular, also for a nonzero
negative employee component). -/
theorem total_savings_rate_precedence (s : PlanSchema) :
    (0 < pf_val_opt s.accounts_employee_contribution_percent 0 →
      (normalize_inputs s).savings_rate_percent =
        pf_val_opt s.accounts_employee_contribution_percent 0 +
          pf_val_opt s.accounts_employer_match_percent 0) ∧
    (¬ 0 < pf_val_opt s.accounts_employee_contribution_percent 0 →
      (normalize_inputs s).savings_rate_percent =
        pf_val s.accounts_savings_rate_percent 0) := by
  constructor
  · intro h
    unfold normalize_inputs
    simp only [if_pos h]
  · intro h
    unfold normalize_inputs
    simp only [if_neg h]

/-- Plan snapshot with a nonzero but negative employee contribution
percent: nothing in the schema or the validation stage rules this value
out. -/
def schema_neg_contrib : PlanSchema :=
  { plan_id := "p1"
    owner_id := "o1"
    client_birth_year := some 1970
    client_retirement_window := none
    ss_combined_at_67_monthly := some 4200
    ss_combined_at_70_monthly := some 5200
    ss_claiming_preference := some (some 67)
    mc_inflation_assumption := none
    mc_return_assumption_real_mean := none
    mc_return_assumption_nominal := none
    mc_horizon_age := some 95
    mc_legacy_floor := some 0
    mc_required_success_rate := some (95/100)
    philosophy_success_probability_target := some (95/100)
    accounts_retirement_balance := some 100000
    accounts_employee_contribution_percent := some (some (-5))
    accounts_employer_match_percent := some (some 3)
    accounts_savings_rate_percent := some 10
    income_current_gross_annual := some 50000
    spending_retirement_monthly_real := some 4000 }

/-- Counterexample to C9 as stated: with employee contribution percent
`-5` (nonzero) and employer match `3`, the claim predicts a total savings
rate of `-2`, but the normalizer falls back to the legacy field and
returns `10` — the source tests `employee_contrib > 0`, not nonzero. -/
theorem total_savings_rate_nonzero_refuted :
    pf_val_opt schema_neg_contrib.accounts_employee_contribution_percent 0 ≠ 0 ∧
    pf_val_opt schema_neg_contrib.accounts_employee_contribution_percent 0 +
      pf_val_opt schema_neg_contrib.accounts_employer_match_percent 0 = -2 ∧
    (normalize_inputs schema_neg_contrib).savings_rate_percent = 10 := by
  refine ⟨by decide, by norm_num [schema_neg_contrib, pf_val_opt], ?_⟩
  norm_num [normalize_inputs, schema_neg_contrib, pf_val, pf_val_opt]

/-- Witness for C9 (amended) at a snapshot with a positive employee
contribution percent. -/
theorem total_savings_rate_precedence_witness :
    (0:ℚ) < pf_val_opt { schema_neg_contrib with
        accounts_employee_contribution_percent := some (some 5)
      }.accounts_employee_contribution_percent 0 ∧
    (normalize_inputs { schema_neg_contrib with
        accounts_employee_contribution_percent := some (some 5)
      }).savings_rate_percent =
      pf_val_opt { schema_neg_contrib with
          accounts_employee_contribution_percent := some (some 5)
        }.accounts_employee_contribution_percent 0 +
        pf_val_opt { schema_neg_contrib with
            accounts_employee_contribution_percent := some (some 5)
          }.accounts_employer_match_percent 0 :=
  ⟨by decide,
    (total_savings_rate_precedence _).1 (by decide)⟩

/-! ## C4: recommended retirement age -/

/-- Weak lexicographic dominance of `(success_probability, retirement_age)`
keys. -/
def key_ge (a b : ℚ × ℤ) : Prop :=
  b.1 < a.1 ∨ (b.1 = a.1 ∧ b.2 ≤ a.2)

theorem key_ge_refl (a : ℚ × ℤ) : key_ge a a := Or.inr ⟨rfl, le_refl _⟩

theorem key_ge_trans {a b c : ℚ × ℤ} (hab : key_ge a b) (hbc : key_ge b c) :
    key_ge a c := by
  rcases hab with h1 | ⟨h1, h1'⟩ <;> rcases hbc with h2 | ⟨h2, h2'⟩
  · exact Or.inl (lt_trans h2 h1)
  · exact Or.inl (h2 ▸ h1)
  · exact Or.inl (lt_of_lt_of_le h2 (le_of_eq h1))
  · exact Or.inr ⟨h2.trans h1, h2'.trans h1'⟩

theorem key_ge_of_not_lt {a b : ℚ × ℤ} (h : ¬ key_lt a b) : key_ge a b := by
  unfold key_lt at h
  push_neg at h
  rcases lt_or_eq_of_le h.1 with hlt | heq
  · exact Or.inl hlt
  · exact Or.inr ⟨heq, h.2 heq.symm⟩

theorem key_ge_of_lt {a b : ℚ × ℤ} (h : key_lt a b) : key_ge b a := by
  rcases h with h | ⟨h, h'⟩
  · exact Or.inl h
  · exact Or.inr ⟨h, h'.le⟩

/-- Python's `max` result belongs to the scanned collection. -/
theorem py_max_by_mem (key : AgeResult → ℚ × ℤ) :
    ∀ (xs : List AgeResult) (best : AgeResult),
      py_max_by key best xs ∈ best :: xs := by
  intro xs
  induction xs with
  | nil => intro best; simp [py_max_by]
  | cons x xs ih =>
      intro best
      unfold py_max_by
      split_ifs with h
      · have := ih x
        simp only [List.mem_cons] at this ⊢
        tauto
      · have := ih best
        simp only [List.mem_cons] at this ⊢
        tauto

/-- Python's `max` result lexicographically dominates the initial best and
every scanned element. -/
theorem py_max_by_dominates (key : AgeResult → ℚ × ℤ) :
    ∀ (xs : List AgeResult) (best : AgeResult),
      key_ge (key (py_max_by key best xs)) (key best) ∧
        ∀ x ∈ xs, key_ge (key (py_max_by key best xs)) (key x) := by
  intro xs
  induction xs with
  | nil =>
      intro best
      exact ⟨key_ge_refl _, by intro x hx; cases hx⟩
  | cons x xs ih =>
      intro best
      unfold py_max_by
      split_ifs with h
      · refine ⟨key_ge_trans (ih x).1 (key_ge_of_lt h), ?_⟩
        intro y hy
        rcases List.mem_cons.mp hy with heq | hy'
        · subst heq
          exact (ih _).1
        · exact (ih _).2 y hy'
      · refine ⟨(ih best).1, ?_⟩
        intro y hy
        rcases List.mem_cons.mp hy with heq | hy'
        · subst heq
          exact key_ge_trans (ih _).1 (key_ge_of_not_lt h)
        · exact (ih _).2 y hy'

/-- C4: for a nonempty candidate age list, the assessment's recommended
retirement age belongs to the base-scenario results, its success
probability is maximal among them, and any other age with the same success
probability is lower or equal. -/
theorem recommended_age_maximizes_success_tie_higher_age
    (znorm : ℤ → ℕ → ℚ) (I : NormalizedInputs) (D : DerivedFields)
    (seed : ℤ) (hne : I.retirement_ages ≠ []) :
    ∃ rec ∈ (run_monte_carlo znorm I D seed).base_results,
      rec.retirement_age =
        (run_monte_carlo znorm I D seed).assessment.recommended_retirement_age ∧
      ∀ r ∈ (run_monte_carlo znorm I D seed).base_results,
        r.success_probability ≤ rec.success_probability ∧
        (r.success_probability = rec.success_probability →
          r.retirement_age ≤ rec.retirement_age) := by
  rcases hl : I.retirement_ages with _ | ⟨a, l⟩
  · exact absurd hl hne
  · have hbase : (run_monte_carlo znorm I D seed).base_results =
        mc_base_entry znorm I D seed a ::
          l.map (mc_base_entry znorm I D seed) := by
      simp [run_monte_carlo, hl]
    have hrec : (run_monte_carlo znorm I D seed).assessment.recommended_retirement_age =
        (py_max_by mc_key (mc_base_entry znorm I D seed a)
          (l.map (mc_base_entry znorm I D seed))).retirement_age := by
      simp [run_monte_carlo, hl]
    refine ⟨py_max_by mc_key (mc_base_entry znorm I D seed a)
      (l.map (mc_base_entry znorm I D seed)), ?_, ?_, ?_⟩
    · rw [hbase]
      exact py_max_by_mem mc_key _ _
    · rw [hrec]
    · intro r hr
      have hdom := py_max_by_dominates mc_key
        (l.map (mc_base_entry znorm I D seed)) (mc_base_entry znorm I D seed a)
      have hge : key_ge
          (mc_key (py_max_by mc_key (mc_base_entry znorm I D seed a)
            (l.map (mc_base_entry znorm I D seed)))) (mc_key r) := by
        rw [hbase] at hr
        rcases List.mem_cons.mp hr with rfl | hr'
        · exact hdom.1
        · exact hdom.2 r hr'
      rcases hge with hlt | ⟨heq, hle⟩
      · exact ⟨hlt.le, fun habs => absurd habs (by exact ne_of_lt hlt)⟩
      · exact ⟨heq.le, fun _ => hle⟩

/-- Witness for C4 at the sample inputs. -/
theorem recommended_age_maximizes_witness :
    sample_inputs.retirement_ages ≠ [] ∧
    ∃ rec ∈ (run_monte_carlo znorm_zero sample_inputs sample_derived 42).base_results,
      rec.retirement_age =
        (run_monte_carlo znorm_zero sample_inputs sample_derived 42).assessment.recommended_retirement_age ∧
      ∀ r ∈ (run_monte_carlo znorm_zero sample_inputs sample_derived 42).base_results,
        r.success_probability ≤ rec.success_probability ∧
        (r.success_probability = rec.success_probability →
          r.retirement_age ≤ rec.retirement_age) :=
  ⟨by decide,
    recommended_age_maximizes_success_tie_higher_age znorm_zero sample_inputs
      sample_derived 42 (by decide)⟩

/-! ## C2: offset-seeded, order-independent simulations -/

/-- C2: the Monte Carlo entry at position `i1` for age `age` equals the
entry at position `i2` of a run whose candidate age list is any other list
containing `age`, for the base scenario and for each stress scenario; and
the base entry is explicitly the simulation of `age` seeded `seed + age`
(the sensitivity entries are seeded `seed + age + 1000`), a function of
the top-level seed, the age, the scenario and the per-age inputs alone. -/
theorem mc_entries_offset_seeded_order_independent
    (znorm : ℤ → ℕ → ℚ) (I : NormalizedInputs) (D : DerivedFields)
    (seed : ℤ) (ages2 : List ℤ) (i1 i2 : ℕ) (age : ℤ)
    (h1 : I.retirement_ages[i1]? = some age)
    (h2 : ages2[i2]? = some age) :
    ((run_monte_carlo znorm I D seed).base_results[i1]? =
        (run_monte_carlo znorm { I with retirement_ages := ages2 } D
          seed).base_results[i2]? ∧
      ∀ sc : Scenario,
        ((run_monte_carlo znorm I D seed).sensitivity_results sc)[i1]? =
          ((run_monte_carlo znorm { I with retirement_ages := ages2 } D
            seed).sensitivity_results sc)[i2]?) ∧
    (run_monte_carlo znorm I D seed).base_results[i1]? =
      some (simulate_retirement_age znorm age
        ((D.projected_balances_base_case_real age).getD I.current_balance)
        I.return_mean I.return_std_dev I.longevity_age
        I.retirement_spending_monthly_real
        (if I.social_security_claiming_age ≤ age then mc_ss_annual I else 0)
        I.legacy_floor I.simulation_count (seed + age) none) ∧
    (∀ sc : Scenario,
      ((run_monte_carlo znorm I D seed).sensitivity_results sc)[i1]? =
        some (simulate_retirement_age znorm age
          ((D.projected_balances_base_case_real age).getD I.current_balance)
          I.return_mean I.return_std_dev I.longevity_age
          I.retirement_spending_monthly_real
          (if I.social_security_claiming_age ≤ age then mc_ss_annual I else 0)
          I.legacy_floor I.simulation_count (seed + age + 1000) (some sc))) := by
  have hbase1 : (run_monte_carlo znorm I D seed).base_results[i1]? =
      some (mc_base_entry znorm I D seed age) := by
    show (I.retirement_ages.map (mc_base_entry znorm I D seed))[i1]? = _
    rw [List.getElem?_map, h1]
    rfl
  have hbase2 : (run_monte_carlo znorm { I with retirement_ages := ages2 } D
      seed).base_results[i2]? =
      some (mc_base_entry znorm { I with retirement_ages := ages2 } D seed age) := by
    show (ages2.map (mc_base_entry znorm
      { I with retirement_ages := ages2 } D seed))[i2]? = _
    rw [List.getElem?_map, h2]
    rfl
  have hsens1 : ∀ sc, ((run_monte_carlo znorm I D seed).sensitivity_results
      sc)[i1]? = some (mc_sensitivity_entry znorm I D seed sc age) := by
    intro sc
    show (I.retirement_ages.map (mc_sensitivity_entry znorm I D seed sc))[i1]? = _
    rw [List.getElem?_map, h1]
    rfl
  have hsens2 : ∀ sc, ((run_monte_carlo znorm { I with retirement_ages := ages2 }
      D seed).sensitivity_results sc)[i2]? =
      some (mc_sensitivity_entry znorm { I with retirement_ages := ages2 } D
        seed sc age) := by
    intro sc
    show (ages2.map (mc_sensitivity_entry znorm
      { I with retirement_ages := ages2 } D seed sc))[i2]? = _
    rw [List.getElem?_map, h2]
    rfl
  refine ⟨⟨?_, ?_⟩, ?_, ?_⟩
  · rw [hbase1, hbase2]
    rfl
  · intro sc
    rw [hsens1 sc, hsens2 sc]
    rfl
  · rw [hbase1]
    rfl
  · intro sc
    rw [hsens1 sc]
    rfl

/-- Witness for C2: age 65 sits at position 0 of the sample age list and
at position 1 of the reordered list `[67, 65]`; the corresponding base
entries agree. -/
theorem mc_entries_offset_seeded_witness :
    sample_inputs.retirement_ages[0]? = some 65 ∧
    ([67, 65] : List ℤ)[1]? = some 65 ∧
    (run_monte_carlo znorm_zero sample_inputs sample_derived 42).base_results[0]? =
      (run_monte_carlo znorm_zero
        { sample_inputs with retirement_ages := [67, 65] } sample_derived
        42).base_results[1]? :=
  ⟨by decide, by decide,
    ((mc_entries_offset_seeded_order_independent znorm_zero sample_inputs
      sample_derived 42 [67, 65] 0 1 65 (by decide) (by decide)).1).1⟩

/-! ## C7: orchestrator skip/halt discipline -/

section RunnerLemmas

variable {V : Type}
variable (impl : PipelineStage → (PipelineStage → Option V) → Except String V)
variable (valid_of : V → Bool) (errors_of : V → List String)
variable (requested : List PipelineStage) (dur : PipelineStage → ℕ)

theorem run_stage_loop_stages_take (seq : List PipelineStage)
    (o : PipelineStage → Option V) :
    (run_stage_loop impl valid_of errors_of requested dur seq o).1.map
        StageResult.stage =
      seq.take (run_stage_loop impl valid_of errors_of requested dur seq
        o).1.length := by
  induction seq generalizing o with
  | nil => simp [run_stage_loop]
  | cons k rest ih =>
      by_cases hk : k ∈ requested
      · rcases himpl : impl k o with e | v
        · simp only [run_stage_loop, if_pos hk, himpl]
          simp
        · by_cases hv : k = PipelineStage.validate ∧ valid_of v = false
          · simp only [run_stage_loop, if_pos hk, himpl, if_pos hv]
            simp
          · simp only [run_stage_loop, if_pos hk, himpl, if_neg hv]
            simp [ih]
      · simp only [run_stage_loop, if_neg hk]
        simp [ih]

theorem run_stage_loop_skipped_status (seq : List PipelineStage)
    (o : PipelineStage → Option V) :
    ∀ r ∈ (run_stage_loop impl valid_of errors_of requested dur seq o).1,
      (r.stage ∉ requested → r.status = .skipped ∧ r.errors = []) ∧
      (r.stage ∈ requested → r.status ≠ .skipped) := by
  induction seq generalizing o with
  | nil => simp [run_stage_loop]
  | cons k rest ih =>
      intro r hr
      by_cases hk : k ∈ requested
      · rcases himpl : impl k o with e | v
        · simp only [run_stage_loop, if_pos hk, himpl,
            List.mem_singleton] at hr
          subst hr
          exact ⟨fun habs => absurd hk habs, fun _ => by simp⟩
        · by_cases hv : k = PipelineStage.validate ∧ valid_of v = false
          · simp only [run_stage_loop, if_pos hk, himpl, if_pos hv,
              List.mem_singleton] at hr
            subst hr
            exact ⟨fun habs => absurd hk habs, fun _ => by simp⟩
          · simp only [run_stage_loop, if_pos hk, himpl, if_neg hv,
              List.mem_cons] at hr
            rcases hr with rfl | hr'
            · exact ⟨fun habs => absurd hk habs, fun _ => by simp⟩
            · exact ih _ r hr'
      · simp only [run_stage_loop, if_neg hk, List.mem_cons] at hr
        rcases hr with rfl | hr'
        · exact ⟨fun _ => ⟨rfl, rfl⟩, fun habs => absurd habs hk⟩
        · exact ih _ r hr'

theorem run_stage_loop_trace_sub (seq : List PipelineStage)
    (o : PipelineStage → Option V) :
    ∀ k ∈ (run_stage_loop impl valid_of errors_of requested dur seq o).2.2,
      k ∈ requested ∧
        k ∈ (run_stage_loop impl valid_of errors_of requested dur seq
          o).1.map StageResult.stage := by
  induction seq generalizing o with
  | nil => simp [run_stage_loop]
  | cons k rest ih =>
      intro x hx
      by_cases hk : k ∈ requested
      · rcases himpl : impl k o with e | v
        · simp only [run_stage_loop, if_pos hk, himpl,
            List.mem_singleton] at hx
          subst hx
          simp only [run_stage_loop, if_pos hk, himpl]
          exact ⟨hk, by simp⟩
        · by_cases hv : k = PipelineStage.validate ∧ valid_of v = false
          · simp only [run_stage_loop, if_pos hk, himpl, if_pos hv,
              List.mem_singleton] at hx
            subst hx
            simp only [run_stage_loop, if_pos hk, himpl, if_pos hv]
            exact ⟨hk, by simp⟩
          · simp only [run_stage_loop, if_pos hk, himpl, if_neg hv,
              List.mem_cons] at hx
            simp only [run_stage_loop, if_pos hk, himpl, if_neg hv,
              List.map_cons, List.mem_cons]
            rcases hx with rfl | hx'
            · exact ⟨hk, Or.inl rfl⟩
            · exact ⟨(ih _ x hx').1, Or.inr (ih _ x hx').2⟩
      · simp only [run_stage_loop, if_neg hk] at hx
        simp only [run_stage_loop, if_neg hk, List.map_cons, List.mem_cons]
        exact ⟨(ih _ x hx).1, Or.inr (ih _ x hx).2⟩

theorem run_stage_loop_failed_last (seq : List PipelineStage)
    (o : PipelineStage → Option V) :
    ∀ (i : ℕ) (r : StageResult),
      (run_stage_loop impl valid_of errors_of requested dur seq o).1[i]? =
        some r →
      r.status = .failed →
      i + 1 = (run_stage_loop impl valid_of errors_of requested dur seq
        o).1.length := by
  induction seq generalizing o with
  | nil => intro i r hget; simp [run_stage_loop] at hget
  | cons k rest ih =>
      intro i r hget hfail
      by_cases hk : k ∈ requested
      · rcases himpl : impl k o with e | v
        · simp only [run_stage_loop, if_pos hk, himpl] at hget ⊢
          rcases i with _ | i
          · simp
          · simp at hget
        · by_cases hv : k = PipelineStage.validate ∧ valid_of v = false
          · simp only [run_stage_loop, if_pos hk, himpl, if_pos hv] at hget ⊢
            rcases i with _ | i
            · simp
            · simp at hget
          · simp only [run_stage_loop, if_pos hk, himpl, if_neg hv] at hget ⊢
            rcases i with _ | i
            · simp only [List.getElem?_cons_zero, Option.some.injEq] at hget
              subst hget
              exact StageStatus.noConfusion hfail
            · simp only [List.getElem?_cons_succ] at hget
              have := ih (fun s => if s = k then some v else o s) i r hget hfail
              simp only [List.length_cons]
              omega
      · simp only [run_stage_loop, if_neg hk] at hget ⊢
        rcases i with _ | i
        · simp only [List.getElem?_cons_zero, Option.some.injEq] at hget
          subst hget
          exact StageStatus.noConfusion hfail
        · simp only [List.getElem?_cons_succ] at hget
          have := ih o i r hget hfail
          simp only [List.length_cons]
          omega

theorem run_stage_loop_failed_errors (seq : List PipelineStage)
    (o : PipelineStage → Option V) :
    ∀ r ∈ (run_stage_loop impl valid_of errors_of requested dur seq o).1,
      r.status = .failed → r.stage ≠ .validate →
      ∃ o2 msg, impl r.stage o2 = Except.error msg ∧ r.errors = [msg] := by
  induction seq generalizing o with
  | nil => simp [run_stage_loop]
  | cons k rest ih =>
      intro r hr hfail hnv
      by_cases hk : k ∈ requested
      · rcases himpl : impl k o with e | v
        · simp only [run_stage_loop, if_pos hk, himpl,
            List.mem_singleton] at hr
          subst hr
          exact ⟨o, e, himpl, rfl⟩
        · by_cases hv : k = PipelineStage.validate ∧ valid_of v = false
          · simp only [run_stage_loop, if_pos hk, himpl, if_pos hv,
              List.mem_singleton] at hr
            subst hr
            exact absurd hv.1 hnv
          · simp only [run_stage_loop, if_pos hk, himpl, if_neg hv,
              List.mem_cons] at hr
            rcases hr with rfl | hr'
            · exact StageStatus.noConfusion hfail
            · exact ih _ r hr' hfail hnv
      · simp only [run_stage_loop, if_neg hk, List.mem_cons] at hr
        rcases hr with rfl | hr'
        · exact StageStatus.noConfusion hfail
        · exact ih _ r hr' hfail hnv

end RunnerLemmas

/-- C7: in the orchestrator's stage loop over the fixed stage sequence,
(a) every result entry whose stage was not requested is marked "skipped"
and that stage is never executed; (b) a requested stage marked "failed"
(other than validate) captured exactly the message of the exception its
implementation raised; (c) a "failed" entry is always the last entry, and
(d) every stage after the halt point is absent from the results and never
executed; finally the runner's `stages` field is exactly this loop's
result list. -/
theorem runner_skipped_and_failure_halt {V : Type}
    (impl : PipelineStage → (PipelineStage → Option V) → Except String V)
    (valid_of : V → Bool) (errors_of : V → List String)
    (requested : List PipelineStage) (dur : PipelineStage → ℕ)
    (R : List StageResult × (PipelineStage → Option V) × List PipelineStage)
    (hR : R = run_stage_loop impl valid_of errors_of requested dur
      stage_sequence (fun _ => none)) :
    (∀ r ∈ R.1,
      (r.stage ∉ requested → r.status = .skipped ∧ r.stage ∉ R.2.2) ∧
      (r.stage ∈ requested → r.status ≠ .skipped)) ∧
    (∀ r ∈ R.1, r.status = .failed → r.stage ≠ .validate →
      ∃ o2 msg, impl r.stage o2 = Except.error msg ∧ r.errors = [msg]) ∧
    (∀ (i : ℕ) (r : StageResult), R.1[i]? = some r → r.status = .failed →
      i + 1 = R.1.length) ∧
    (∀ (j : ℕ) (hj : j < stage_sequence.length), R.1.length ≤ j →
      stage_sequence.get ⟨j, hj⟩ ∉ R.1.map StageResult.stage ∧
      stage_sequence.get ⟨j, hj⟩ ∉ R.2.2) ∧
    (∀ (M : Type) (metrics_of : (PipelineStage → Option V) → M)
      (request : PipelineRequest) (env : RunnerEnv),
      request.stages = requested → env.dur = dur →
      (run_pipeline impl valid_of errors_of metrics_of request env).stages =
        R.1) := by
  subst hR
  refine ⟨?_, ?_, ?_, ?_, ?_⟩
  · intro r hr
    have hs := run_stage_loop_skipped_status impl valid_of errors_of
      requested dur stage_sequence (fun _ => none) r hr
    refine ⟨fun hnr => ⟨(hs.1 hnr).1, fun htr => ?_⟩, hs.2⟩
    exact hnr (run_stage_loop_trace_sub impl valid_of errors_of requested
      dur stage_sequence (fun _ => none) r.stage htr).1
  · exact run_stage_loop_failed_errors impl valid_of errors_of requested dur
      stage_sequence (fun _ => none)
  · exact run_stage_loop_failed_last impl valid_of errors_of requested dur
      stage_sequence (fun _ => none)
  · intro j hj hlen
    have htake := run_stage_loop_stages_take impl valid_of errors_of
      requested dur stage_sequence (fun _ => none)
    have hnotin : stage_sequence.get ⟨j, hj⟩ ∉
        (run_stage_loop impl valid_of errors_of requested dur stage_sequence
          (fun _ => none)).1.map StageResult.stage := by
      rw [htake]
      intro hmem
      have hnd : stage_sequence.Nodup := by decide
      rw [List.mem_iff_getElem] at hmem
      obtain ⟨i, hilt, hieq⟩ := hmem
      have hitk : i < (run_stage_loop impl valid_of errors_of requested dur
          stage_sequence (fun _ => none)).1.length := by
        have := List.length_take_le ((run_stage_loop impl valid_of errors_of
          requested dur stage_sequence (fun _ => none)).1.length)
          stage_sequence
        simp [List.length_take] at hilt
        omega
      have his : i < stage_sequence.length := by
        have : (run_stage_loop impl valid_of errors_of requested dur
            stage_sequence (fun _ => none)).1.length ≤ stage_sequence.length := by
          have := congrArg List.length htake
          simp [List.length_take] at this
          omega
        omega
      rw [List.getElem_take] at hieq
      have := (List.Nodup.getElem_inj_iff hnd).mp
        (by rw [hieq]; rfl : stage_sequence[i] = stage_sequence[j])
      omega
    refine ⟨hnotin, fun htr => hnotin ?_⟩
    exact (run_stage_loop_trace_sub impl valid_of errors_of requested dur
      stage_sequence (fun _ => none) _ htr).2
  · intro M metrics_of request env hreq hdur
    subst hreq
    subst hdur
    rfl

/-- Stage implementations for the runner witnesses: every stage succeeds
except `derive`, which raises. -/
def impl_w : PipelineStage → (PipelineStage → Option Unit) → Except String Unit :=
  fun k _ => if k = .derive then .error "boom" else .ok ()

/-- Requested stage set for the runner witness: validate and derive only. -/
def req_w : List PipelineStage := [.validate, .derive]

/-- Witness for C7: with stages `[validate, derive]` requested and `derive`
raising, the normalize entry is skipped and unexecuted, and the failed
derive entry at position 2 is the last entry of the results. -/
theorem runner_skipped_and_failure_halt_witness :
    ((⟨.normalize, .skipped, 0, []⟩ : StageResult) ∈
        (run_stage_loop impl_w (fun _ => true) (fun _ => []) req_w
          (fun _ => 0) stage_sequence (fun _ => none)).1 ∧
      (⟨.normalize, .skipped, 0, []⟩ : StageResult).status = .skipped ∧
      PipelineStage.normalize ∉
        (run_stage_loop impl_w (fun _ => true) (fun _ => []) req_w
          (fun _ => 0) stage_sequence (fun _ => none)).2.2) ∧
    2 + 1 = (run_stage_loop impl_w (fun _ => true) (fun _ => []) req_w
      (fun _ => 0) stage_sequence (fun _ => none)).1.length := by
  have H := runner_skipped_and_failure_halt impl_w (fun _ => true)
    (fun _ => []) req_w (fun _ => 0) _ rfl
  refine ⟨⟨by decide, rfl, ?_⟩, ?_⟩
  · exact ((H.1 ⟨.normalize, .skipped, 0, []⟩ (by decide)).1 (by decide)).2
  · exact H.2.2.1 2 ⟨.derive, .failed, 0, ["boom"]⟩ (by decide) rfl

/-! ## C1: determinism of `run_pipeline` -/

theorem run_stage_loop_dur_indep {V : Type}
    (impl : PipelineStage → (PipelineStage → Option V) → Except String V)
    (valid_of : V → Bool) (errors_of : V → List String)
    (requested : List PipelineStage) (dur1 dur2 : PipelineStage → ℕ) :
    ∀ (seq : List PipelineStage) (o : PipelineStage → Option V),
      (run_stage_loop impl valid_of errors_of requested dur1 seq o).1.map
          (fun r => (r.stage, r.status, r.errors)) =
        (run_stage_loop impl valid_of errors_of requested dur2 seq o).1.map
          (fun r => (r.stage, r.status, r.errors)) ∧
      (run_stage_loop impl valid_of errors_of requested dur1 seq o).2 =
        (run_stage_loop impl valid_of errors_of requested dur2 seq o).2 := by
  intro seq
  induction seq with
  | nil => intro o; exact ⟨rfl, rfl⟩
  | cons k rest ih =>
      intro o
      by_cases hk : k ∈ requested
      · rcases himpl : impl k o with e | v
        · simp [run_stage_loop, hk, himpl]
        · by_cases hv : k = PipelineStage.validate ∧ valid_of v = false
          · simp [run_stage_loop, if_pos hk, himpl, if_pos hv]
          · simp only [run_stage_loop, if_pos hk, himpl, if_neg hv,
              List.map_cons]
            refine ⟨?_, ?_⟩
            · rw [(ih _).1]
            · have h2 := (ih (fun s => if s = k then some v else o s)).2
              rw [Prod.ext_iff] at h2 ⊢
              exact ⟨h2.1, by rw [h2.2]⟩
      · simp only [run_stage_loop, if_neg hk, List.map_cons]
        exact ⟨by rw [(ih o).1], (ih o).2⟩

/-- C1 (amended): with the stage implementations, validation accessors and
metrics extraction held fixed (in the source they are pure functions of
the schema snapshot and the request seed, all randomness being derived
from the seed), two invocations of `run_pipeline` on the same request
agree on the plan/owner/snapshot identity fields, on every stage's
identity, status and error list, on the accumulated outputs and on the
metrics; the fresh `uuid4` pipeline id, the two timestamps and the
measured per-stage durations are the only components that may differ
between the two invocations. -/
theorem run_pipeline_deterministic {V M : Type}
    (impl : PipelineStage → (PipelineStage → Option V) → Except String V)
    (valid_of : V → Bool) (errors_of : V → List String)
    (metrics_of : (PipelineStage → Option V) → M)
    (request : PipelineRequest) (env1 env2 : RunnerEnv) :
    (run_pipeline impl valid_of errors_of metrics_of request env1).plan_id =
      (run_pipeline impl valid_of errors_of metrics_of request env2).plan_id ∧
    (run_pipeline impl valid_of errors_of metrics_of request env1).owner_id =
      (run_pipeline impl valid_of errors_of metrics_of request env2).owner_id ∧
    (run_pipeline impl valid_of errors_of metrics_of request
        env1).schema_snapshot_id =
      (run_pipeline impl valid_of errors_of metrics_of request
        env2).schema_snapshot_id ∧
    (run_pipeline impl valid_of errors_of metrics_of request env1).stages.map
        (fun r => (r.stage, r.status, r.errors)) =
      (run_pipeline impl valid_of errors_of metrics_of request env2).stages.map
        (fun r => (r.stage, r.status, r.errors)) ∧
    (run_pipeline impl valid_of errors_of metrics_of request env1).outputs =
      (run_pipeline impl valid_of errors_of metrics_of request env2).outputs ∧
    (run_pipeline impl valid_of errors_of metrics_of request env1).metrics =
      (run_pipeline impl valid_of errors_of metrics_of request env2).metrics := by
  have h := run_stage_loop_dur_indep impl valid_of errors_of request.stages
    env1.dur env2.dur stage_sequence (fun _ => none)
  have houts : (run_pipeline impl valid_of errors_of metrics_of request
      env1).outputs = (run_pipeline impl valid_of errors_of metrics_of
      request env2).outputs := by
    show (run_stage_loop impl valid_of errors_of request.stages env1.dur
        stage_sequence (fun _ => none)).2.1 = (run_stage_loop impl valid_of
        errors_of request.stages env2.dur stage_sequence (fun _ => none)).2.1
    rw [h.2]
  refine ⟨rfl, rfl, rfl, h.1, houts, ?_⟩
  show metrics_of (run_stage_loop impl valid_of errors_of request.stages
      env1.dur stage_sequence (fun _ => none)).2.1 = metrics_of
      (run_stage_loop impl valid_of errors_of request.stages env2.dur
      stage_sequence (fun _ => none)).2.1
  rw [h.2]

/-- Request used by the C1 counterexample. -/
def req_c1 : PipelineRequest := ⟨"plan", "owner", "snap", req_w, 42⟩

/-- Counterexample to C1 as stated: the same request and schema run twice
produce `PipelineResult`s that are not bit-identical — `run_pipeline`
draws a fresh `uuid4()` pipeline id on every invocation (here the two
resolutions "a" and "b" of that draw), so the identifying field
`pipeline_id` differs between the two runs. -/
theorem run_pipeline_bit_identical_refuted :
    run_pipeline impl_w (fun _ => true) (fun _ => []) (fun _ => ()) req_c1
        ⟨"a", 0, 0, fun _ => 0⟩ ≠
      run_pipeline impl_w (fun _ => true) (fun _ => []) (fun _ => ()) req_c1
        ⟨"b", 0, 0, fun _ => 0⟩ := by
  intro h
  have hid := congrArg PipelineResultM.pipeline_id h
  simp [run_pipeline] at hid

/-! ## Per-path semantics of the Monte Carlo year loop -/

/-- The year loop of `_simulate_retirement_age` restricted to a single
path: apply `mc_year_update` for years `y, y+1, ...`, `k` times. -/
def mc_path_from (annual_spending ss_annual : ℚ) (rs : ℕ → ℚ) (y : ℕ) :
    ℕ → PathState → PathState
  | 0, st => st
  | k + 1, st =>
      mc_path_from annual_spending ss_annual rs (y + 1) k
        (mc_year_update annual_spending ss_annual st (rs y))

theorem mc_step_year_getElem (annual_spending ss_annual : ℚ)
    (draws : ℕ → ℕ → ℚ) (y : ℕ) :
    ∀ (p0 : ℕ) (sts : List PathState) (i : ℕ),
      (mc_step_year annual_spending ss_annual draws y p0 sts)[i]? =
        (sts[i]?).map
          (fun st => mc_year_update annual_spending ss_annual st
            (draws (p0 + i) y)) := by
  intro p0 sts
  induction sts generalizing p0 with
  | nil => intro i; simp [mc_step_year]
  | cons st rest ih =>
      intro i
      rcases i with _ | i
      · simp [mc_step_year]
      · have := ih (p0 + 1) i
        simp only [mc_step_year, List.getElem?_cons_succ, this]
        have harith : p0 + 1 + i = p0 + (i + 1) := by omega
        rw [harith]

theorem mc_sim_loop_getElem (annual_spending ss_annual : ℚ)
    (draws : ℕ → ℕ → ℚ) :
    ∀ (k y : ℕ) (sts : List PathState) (i : ℕ),
      (mc_sim_loop annual_spending ss_annual draws y k sts)[i]? =
        (sts[i]?).map
          (mc_path_from annual_spending ss_annual (fun j => draws i j) y k) := by
  intro k
  induction k with
  | zero =>
      intro y sts i
      simp only [mc_sim_loop]
      cases sts[i]? <;> simp [mc_path_from]
  | succ k ih =>
      intro y sts i
      simp only [mc_sim_loop]
      rw [ih (y + 1) _ i, mc_step_year_getElem]
      cases sts[i]? <;> simp [mc_path_from]

theorem mc_step_year_length (annual_spending ss_annual : ℚ)
    (draws : ℕ → ℕ → ℚ) (y : ℕ) :
    ∀ (p0 : ℕ) (sts : List PathState),
      (mc_step_year annual_spending ss_annual draws y p0 sts).length =
        sts.length := by
  intro p0 sts
  induction sts generalizing p0 with
  | nil => simp [mc_step_year]
  | cons st rest ih => simp [mc_step_year, ih]

theorem mc_sim_loop_length (annual_spending ss_annual : ℚ)
    (draws : ℕ → ℕ → ℚ) :
    ∀ (k y : ℕ) (sts : List PathState),
      (mc_sim_loop annual_spending ss_annual draws y k sts).length =
        sts.length := by
  intro k
  induction k with
  | zero => intro y sts; simp [mc_sim_loop]
  | succ k ih =>
      intro y sts
      simp only [mc_sim_loop]
      rw [ih, mc_step_year_length]

/-- A year whose updated raw balance lands at or below zero marks the path
failed and leaves balance exactly 0. -/
theorem mc_year_update_zero_of_nonpos (annual_spending ss_annual : ℚ)
    (st : PathState) (r : ℚ)
    (hle : (st.balance - max (annual_spending - ss_annual) 0) * (1 + r) ≤ 0) :
    mc_year_update annual_spending ss_annual st r = ⟨0, true⟩ := by
  unfold mc_year_update
  simp only
  have hb0 : (if (st.balance - max (annual_spending - ss_annual) 0) *
      (1 + r) < 0 then (0:ℚ)
      else (st.balance - max (annual_spending - ss_annual) 0) * (1 + r)) = 0 := by
    rcases lt_or_eq_of_le hle with hlt | heq
    · rw [if_pos hlt]
    · rw [heq]
      simp
  have hf : (st.failed || decide ((st.balance -
      max (annual_spending - ss_annual) 0) * (1 + r) ≤ 0)) = true := by
    simp only [decide_eq_true hle, Bool.or_true]
  rw [hb0, hf]

/-! ## C3: per-path withdrawal, failure marking and clamping -/

/-- C3 (amended): in the Monte Carlo year loop, (a) whenever the updated
balance `(balance − max(spend − ss, 0)) · (1 + r)` of a year lands at or
below zero, that year's update marks the path failed and clamps the
balance to exactly 0; (b) the failed flag, once set, persists through
every later year; (c) provided every subsequent year's drawn return is at
least −100%, a failed path's balance stays exactly 0 for the rest of the
simulation; and (d) the vectorized loop acts on each path independently as
this per-path recurrence.  (Without the return bound of (c) the clamp does
not persist — see the counterexample for the claim as stated.) -/
theorem mc_path_failure_clamp :
    (∀ (annual_spending ss_annual : ℚ) (st : PathState) (r : ℚ),
      (st.balance - max (annual_spending - ss_annual) 0) * (1 + r) ≤ 0 →
      mc_year_update annual_spending ss_annual st r = ⟨0, true⟩) ∧
    (∀ (annual_spending ss_annual : ℚ) (rs : ℕ → ℚ) (y k : ℕ)
      (st : PathState), st.failed = true →
      (mc_path_from annual_spending ss_annual rs y k st).failed = true) ∧
    (∀ (annual_spending ss_annual : ℚ) (rs : ℕ → ℚ) (y k : ℕ),
      (∀ j, y ≤ j → j < y + k → -1 ≤ rs j) →
      mc_path_from annual_spending ss_annual rs y k ⟨0, true⟩ = ⟨0, true⟩) ∧
    (∀ (annual_spending ss_annual : ℚ) (draws : ℕ → ℕ → ℚ) (y k : ℕ)
      (sts : List PathState) (i : ℕ),
      (mc_sim_loop annual_spending ss_annual draws y k sts)[i]? =
        (sts[i]?).map
          (mc_path_from annual_spending ss_annual (fun j => draws i j) y k)) := by
  refine ⟨mc_year_update_zero_of_nonpos, ?_, ?_, ?_⟩
  · intro annual_spending ss_annual rs y k
    induction k generalizing y with
    | zero => intro st h; simpa [mc_path_from] using h
    | succ k ih =>
        intro st h
        simp only [mc_path_from]
        exact ih (y + 1) _ (by simp [mc_year_update, h])
  · intro annual_spending ss_annual rs y k
    induction k generalizing y with
    | zero => intro _; simp [mc_path_from]
    | succ k ih =>
        intro hbound
        simp only [mc_path_from]
        have hupd : mc_year_update annual_spending ss_annual ⟨0, true⟩ (rs y) =
            ⟨0, true⟩ := by
          have hr : -1 ≤ rs y := hbound y (le_refl y) (by omega)
          apply mc_year_update_zero_of_nonpos
      
          have hw : 0 ≤ max (annual_spending - ss_annual) 0 := le_max_right _ _
          have h1r : 0 ≤ 1 + rs y := by linarith
          show ((⟨0, true⟩ : PathState).balance -
            max (annual_spending - ss_annual) 0) * (1 + rs y) ≤ 0
          simp only
          nlinarith
        rw [hupd]
        exact ih (y + 1) (fun j hj1 hj2 => hbound j (by omega) (by omega))
  · exact fun a b c d e f g => mc_sim_loop_getElem a b c e d f g

/-- Draw stream whose second standard-normal draw is −2, giving a −200%
return in the second simulated year. -/
def znorm_crash : ℤ → ℕ → ℚ := fun _ j => if j = 1 then -2 else 0

/-- Counterexample to C3 as stated: in the simulation with one path, two
years, mean 0, stddev 1 and seed 5, the drawn returns are (0%, −200%).
The path fails in year 0 (balance clamped to 0, failed set), yet year 1's
update `(0 − 1200)·(1 + (−2)) = 1200` makes the failed path's balance
positive again — the positive balance even reaches the reported terminal
percentiles while the success probability is 0 — refuting "a failed path
never shows a positive balance again". -/
theorem mc_failed_path_balance_resurges :
    mc_path_from 1200 0 (fun j => sim_draws znorm_crash none 5 0 1 2 0 j) 0 1
        ⟨1000, false⟩ = ⟨0, true⟩ ∧
    mc_path_from 1200 0 (fun j => sim_draws znorm_crash none 5 0 1 2 0 j) 0 2
        ⟨1000, false⟩ = ⟨1200, true⟩ ∧
    (0:ℚ) < 1200 ∧
    (simulate_retirement_age znorm_crash 65 1000 0 1 67 100 0 0 1 5
        none).success_probability = 0 ∧
    (simulate_retirement_age znorm_crash 65 1000 0 1 67 100 0 0 1 5
        none).terminal_balance_percentiles_real =
      some ⟨1200, 1200, 1200, 1200, 1200⟩ := by
  refine ⟨?_, ?_, by norm_num, ?_, ?_⟩
  · norm_num [mc_path_from, mc_year_update, sim_draws, base_draws, znorm_crash]
  · norm_num [mc_path_from, mc_year_update, sim_draws, base_draws, znorm_crash]
  · norm_num [simulate_retirement_age, mc_sim_loop, mc_step_year,
      mc_year_update, sim_draws, base_draws, znorm_crash, np_percentile,
      quantile_at, List.insertionSort, List.orderedInsert, py_round,
      round_half_even]
  · norm_num [simulate_retirement_age, mc_sim_loop, mc_step_year,
      mc_year_update, sim_draws, base_draws, znorm_crash, np_percentile,
      quantile_at, List.insertionSort, List.orderedInsert, py_round,
      round_half_even]

/-- Witness for C3 (amended) at concrete numbers: a failing year clamps
and marks, and a failed zero-balance path stays at zero under returns of
at least −100%. -/
theorem mc_path_failure_clamp_witness :
    mc_year_update 1200 0 ⟨1000, false⟩ 0 = ⟨0, true⟩ ∧
    mc_path_from 1200 0 (fun _ => 0) 0 3 ⟨0, true⟩ = ⟨0, true⟩ := by
  constructor
  · exact mc_path_failure_clamp.1 1200 0 ⟨1000, false⟩ 0 (by norm_num)
  · exact mc_path_failure_clamp.2.2.1 1200 0 (fun _ => 0) 0 3
      (fun j _ _ => by norm_num)

/-! ## C5: probability and percentile invariants -/

theorem np_percentile_mono (l : List ℚ) {q1 q2 : ℚ} (hl : 1 ≤ l.length)
    (h0 : 0 ≤ q1) (h12 : q1 ≤ q2) (h100 : q2 ≤ 100) :
    np_percentile l q1 ≤ np_percentile l q2 := by
  unfold np_percentile
  have hs : (l.insertionSort (· ≤ ·)).Sorted (· ≤ ·) :=
    List.sorted_insertionSort (· ≤ ·) l
  have hlen : (l.insertionSort (· ≤ ·)).length = l.length :=
    (List.perm_insertionSort (· ≤ ·) l).length_eq
  have hln : (1:ℚ) ≤ (l.length : ℚ) := by exact_mod_cast hl
  apply quantile_at_mono hs
  · exact mul_nonneg (div_nonneg h0 (by norm_num)) (by linarith)
  · have hq : q1 / 100 ≤ q2 / 100 := by linarith
    exact mul_le_mul_of_nonneg_right hq (by linarith)
  · rw [hlen]
    have hq1 : q2 / 100 ≤ 1 := by linarith
    nlinarith

/-- C5: every simulation result has a success probability in `[0, 1]`, and
whenever terminal-balance percentiles are reported they are ordered
`p05 ≤ p25 ≤ p50 ≤ p75 ≤ p95` — both surviving their rounding (4 decimals
for the probability, cents for the percentiles). -/
theorem sim_result_bounds (znorm : ℤ → ℕ → ℚ) (retirement_age : ℤ)
    (start_balance return_mean return_std_dev : ℚ) (longevity_age : ℤ)
    (monthly_spending ss_annual legacy_floor : ℚ) (simulation_count : ℕ)
    (seed : ℤ) (scenario : Option Scenario) (hm : 1 ≤ simulation_count) :
    0 ≤ (simulate_retirement_age znorm retirement_age start_balance
      return_mean return_std_dev longevity_age monthly_spending ss_annual
      legacy_floor simulation_count seed scenario).success_probability ∧
    (simulate_retirement_age znorm retirement_age start_balance return_mean
      return_std_dev longevity_age monthly_spending ss_annual legacy_floor
      simulation_count seed scenario).success_probability ≤ 1 ∧
    ∀ P, (simulate_retirement_age znorm retirement_age start_balance
      return_mean return_std_dev longevity_age monthly_spending ss_annual
      legacy_floor simulation_count seed scenario).terminal_balance_percentiles_real
        = some P →
      P.p05 ≤ P.p25 ∧ P.p25 ≤ P.p50 ∧ P.p50 ≤ P.p75 ∧ P.p75 ≤ P.p95 := by
  unfold simulate_retirement_age
  by_cases hy : longevity_age - retirement_age ≤ 0
  · rw [if_pos hy]
    refine ⟨le_refl 0, zero_le_one, fun P hP => Option.noConfusion hP⟩
  · rw [if_neg hy]
    dsimp only
    have hflen : (mc_sim_loop (monthly_spending * 12) ss_annual
        (sim_draws znorm scenario seed return_mean return_std_dev
          (longevity_age - retirement_age).toNat) 0
        (longevity_age - retirement_age).toNat
        ((List.range simulation_count).map
          fun _ => ⟨start_balance, false⟩)).length = simulation_count := by
      rw [mc_sim_loop_length]
      simp
    have hballen : ((mc_sim_loop (monthly_spending * 12) ss_annual
        (sim_draws znorm scenario seed return_mean return_std_dev
          (longevity_age - retirement_age).toNat) 0
        (longevity_age - retirement_age).toNat
        ((List.range simulation_count).map
          fun _ => ⟨start_balance, false⟩)).map PathState.balance).length =
        simulation_count := by
      rw [List.length_map, hflen]
    have hmq : (0:ℚ) < (simulation_count : ℚ) := by
      exact_mod_cast lt_of_lt_of_le zero_lt_one hm
    refine ⟨?_, ?_, ?_⟩
    · apply py_round_nonneg
      positivity
    · apply py_round_le_one
      apply div_le_one_of_le₀
      · have hc := List.count_le_length true
          ((mc_sim_loop (monthly_spending * 12) ss_annual
            (sim_draws znorm scenario seed return_mean return_std_dev
              (longevity_age - retirement_age).toNat) 0
            (longevity_age - retirement_age).toNat
            ((List.range simulation_count).map
              fun _ => ⟨start_balance, false⟩)).map
            fun st => !st.failed && decide (legacy_floor ≤ st.balance))
        rw [List.length_map, hflen] at hc
        exact_mod_cast hc
      · positivity
    · intro P hP
      rw [Option.some.injEq] at hP
      subst hP
      have hl1 : 1 ≤ ((mc_sim_loop (monthly_spending * 12) ss_annual
          (sim_draws znorm scenario seed return_mean return_std_dev
            (longevity_age - retirement_age).toNat) 0
          (longevity_age - retirement_age).toNat
          ((List.range simulation_count).map
            fun _ => ⟨start_balance, false⟩)).map PathState.balance).length := by
        rw [hballen]
        exact hm
      exact ⟨py_round_mono 2 (np_percentile_mono _ hl1 (by norm_num)
          (by norm_num) (by norm_num)),
        py_round_mono 2 (np_percentile_mono _ hl1 (by norm_num) (by norm_num)
          (by norm_num)),
        py_round_mono 2 (np_percentile_mono _ hl1 (by norm_num) (by norm_num)
          (by norm_num)),
        py_round_mono 2 (np_percentile_mono _ hl1 (by norm_num) (by norm_num)
          (by norm_num))⟩

/-- Witness for C5: the bounds instantiated at a concrete one-path
simulation. -/
theorem sim_result_bounds_witness :
    1 ≤ 1 ∧
    (0 ≤ (simulate_retirement_age znorm_zero 65 1000 0 1 67 100 0 0 1 5
        none).success_probability ∧
      (simulate_retirement_age znorm_zero 65 1000 0 1 67 100 0 0 1 5
        none).success_probability ≤ 1 ∧
      ∀ P, (simulate_retirement_age znorm_zero 65 1000 0 1 67 100 0 0 1 5
          none).terminal_balance_percentiles_real = some P →
        P.p05 ≤ P.p25 ∧ P.p25 ≤ P.p50 ∧ P.p50 ≤ P.p75 ∧ P.p75 ≤ P.p95) :=
  ⟨le_refl 1,
    sim_result_bounds znorm_zero 65 1000 0 1 67 100 0 0 1 5 none (le_refl 1)⟩

/-! ## C8: backtest under a fixed crash sequence -/

theorem bt_year_update_balance (a s : ℚ) (ra : ℤ) (i : ℕ) (st : BtState)
    (r : ℚ) :
    (bt_year_update a s ra i st r).balance =
      if (st.balance - max (a - (if ra ≤ ra + (i:ℤ) then s else 0)) 0) *
          (1 + r) < 0 then 0
      else (st.balance - max (a - (if ra ≤ ra + (i:ℤ) then s else 0)) 0) *
        (1 + r) := rfl

theorem bt_year_update_depleted (a s : ℚ) (ra : ℤ) (i : ℕ) (st : BtState)
    (r : ℚ) :
    (bt_year_update a s ra i st r).depleted =
      (st.depleted || decide ((st.balance -
        max (a - (if ra ≤ ra + (i:ℤ) then s else 0)) 0) * (1 + r) ≤ 0)) := rfl

theorem bt_year_update_age (a s : ℚ) (ra : ℤ) (i : ℕ) (st : BtState)
    (r : ℚ) :
    (bt_year_update a s ra i st r).depletion_age =
      if (st.balance - max (a - (if ra ≤ ra + (i:ℤ) then s else 0)) 0) *
          (1 + r) ≤ 0 ∧ st.depleted = false
      then some (ra + (i:ℤ)) else st.depletion_age := rfl

theorem bt_loop_depleted_mono (a s : ℚ) (ra : ℤ) :
    ∀ (rs : List ℚ) (i : ℕ) (st : BtState), st.depleted = true →
      (bt_loop a s ra rs i st).depleted = true ∧
      (bt_loop a s ra rs i st).depletion_age = st.depletion_age := by
  intro rs
  induction rs with
  | nil => intro i st h; exact ⟨h, rfl⟩
  | cons r rest ih =>
      intro i st h
      have hup_dep : (bt_year_update a s ra i st r).depleted = true := by
        rw [bt_year_update_depleted, h, Bool.true_or]
      have hup_age : (bt_year_update a s ra i st r).depletion_age =
          st.depletion_age := by
        rw [bt_year_update_age, if_neg]
        rintro ⟨-, habs⟩
        rw [h] at habs
        exact Bool.noConfusion habs
      have hrec := ih (i + 1) (bt_year_update a s ra i st r) hup_dep
      simp only [bt_loop]
      exact ⟨hrec.1, by rw [hrec.2, hup_age]⟩

theorem bt_loop_depletion_age_set (a s : ℚ) (ra : ℤ) :
    ∀ (rs : List ℚ) (i : ℕ) (st : BtState), st.depleted = false →
      (bt_loop a s ra rs i st).depleted = true →
      ∃ x, (bt_loop a s ra rs i st).depletion_age = some x ∧ ra ≤ x := by
  intro rs
  induction rs with
  | nil =>
      intro i st h0 h1
      rw [show bt_loop a s ra [] i st = st from rfl, h0] at h1
      exact Bool.noConfusion h1
  | cons r rest ih =>
      intro i st h0 h1
      simp only [bt_loop] at h1 ⊢
      by_cases hb : (st.balance -
          max (a - (if ra ≤ ra + (i:ℤ) then s else 0)) 0) * (1 + r) ≤ 0
      · have hup_dep : (bt_year_update a s ra i st r).depleted = true := by
          rw [bt_year_update_depleted, h0, decide_eq_true hb, Bool.false_or]
        have hup_age : (bt_year_update a s ra i st r).depletion_age =
            some (ra + (i:ℤ)) := by
          rw [bt_year_update_age, if_pos ⟨hb, h0⟩]
        have hfro := bt_loop_depleted_mono a s ra rest (i + 1) _ hup_dep
        exact ⟨ra + (i:ℤ), by rw [hfro.2, hup_age],
          le_add_of_nonneg_right (Int.natCast_nonneg i)⟩
      · have hup_dep : (bt_year_update a s ra i st r).depleted = false := by
          rw [bt_year_update_depleted, h0, decide_eq_false hb, Bool.false_or]
        exact ih (i + 1) _ hup_dep h1

theorem bt_loop_all_half_depletes (a s : ℚ) (ra : ℤ) (hw : 0 < a - s) :
    ∀ (rs : List ℚ) (i : ℕ) (st : BtState),
      (∀ r ∈ rs, r = -(1/2)) → st.depleted = false → 0 < st.balance →
      st.balance ≤ (rs.length : ℚ) * ((a - s) / 2) →
      (bt_loop a s ra rs i st).depleted = true := by
  intro rs
  induction rs with
  | nil =>
      intro i st hall h0 hpos hle
      simp at hle
      linarith
  | cons r rest ih =>
      intro i st hall h0 hpos hle
      have hr : r = -(1/2) := hall r (List.mem_cons_self r rest)
      have hss : (if ra ≤ ra + (i:ℤ) then s else 0) = s :=
        if_pos (le_add_of_nonneg_right (Int.natCast_nonneg i))
      have hbval : (st.balance -
          max (a - (if ra ≤ ra + (i:ℤ) then s else 0)) 0) * (1 + r) =
          (st.balance - (a - s)) / 2 := by
        rw [hss, max_eq_left hw.le, hr]
        ring
      simp only [bt_loop]
      by_cases hb : (st.balance -
          max (a - (if ra ≤ ra + (i:ℤ) then s else 0)) 0) * (1 + r) ≤ 0
      · refine (bt_loop_depleted_mono a s ra rest (i + 1) _ ?_).1
        rw [bt_year_update_depleted, decide_eq_true hb, Bool.or_true]
      · have hbpos : 0 < (st.balance -
            max (a - (if ra ≤ ra + (i:ℤ) then s else 0)) 0) * (1 + r) :=
          lt_of_not_le hb
        have hlen0 : (0:ℚ) ≤ (rest.length : ℚ) := Nat.cast_nonneg _
        have hle' : st.balance ≤ ((rest.length : ℚ) + 1) * ((a - s) / 2) := by
          have hcast : ((r :: rest).length : ℚ) = (rest.length : ℚ) + 1 := by
            push_cast [List.length_cons]
            ring
          rw [hcast] at hle
          exact hle
        apply ih (i + 1)
        · exact fun x hx => hall x (List.mem_cons_of_mem r hx)
        · rw [bt_year_update_depleted, h0, decide_eq_false hb, Bool.false_or]
        · rw [bt_year_update_balance, if_neg (not_lt.mpr hbpos.le)]
          exact hbpos
        · rw [bt_year_update_balance, if_neg (not_lt.mpr hbpos.le), hbval]
          nlinarith [mul_nonneg hlen0 hw.le]

theorem bt_loop_matches_mc_fold (a s : ℚ) (ra : ℤ) :
    ∀ (rs : List ℚ) (i : ℕ) (st : BtState),
      (bt_loop a s ra rs i st).balance =
        (rs.foldl (mc_year_update a s) ⟨st.balance, st.depleted⟩).balance ∧
      (bt_loop a s ra rs i st).depleted =
        (rs.foldl (mc_year_update a s) ⟨st.balance, st.depleted⟩).failed := by
  intro rs
  induction rs with
  | nil => intro i st; exact ⟨rfl, rfl⟩
  | cons r rest ih =>
      intro i st
      simp only [bt_loop, List.foldl_cons]
      have hss : (if ra ≤ ra + (i:ℤ) then s else 0) = s :=
        if_pos (le_add_of_nonneg_right (Int.natCast_nonneg i))
      have hbal : (bt_year_update a s ra i st r).balance =
          (mc_year_update a s ⟨st.balance, st.depleted⟩ r).balance := by
        rw [bt_year_update_balance, hss]
        rfl
      have hdep : (bt_year_update a s ra i st r).depleted =
          (mc_year_update a s ⟨st.balance, st.depleted⟩ r).failed := by
        rw [bt_year_update_depleted, hss]
        rfl
      have hrec := ih (i + 1) (bt_year_update a s ra i st r)
      rw [hrec.1, hrec.2, hbal, hdep]
      exact ⟨rfl, rfl⟩

/-- C8 (amended): the backtest per-year mechanics are exactly the Monte
Carlo per-path mechanics applied to the fixed return sequence (balance and
failure evolve as the fold of `mc_year_update`); and every period
simulation whose return sequence is −50% throughout, with a positive
starting balance, a positive net annual withdrawal
(`monthly_spending·12 − ss_annual > 0`, which the claim as stated omits),
a retirement age ≥ 1 and a horizon of at least `2·start/net-withdrawal`
years, ends unsuccessful with a non-null, nonzero depletion age. -/
theorem backtest_fixed_crash_sequence :
    (∀ (annual_spending ss_annual : ℚ) (ra : ℤ) (rs : List ℚ) (i : ℕ)
      (st : BtState),
      (bt_loop annual_spending ss_annual ra rs i st).balance =
        (rs.foldl (mc_year_update annual_spending ss_annual)
          ⟨st.balance, st.depleted⟩).balance ∧
      (bt_loop annual_spending ss_annual ra rs i st).depleted =
        (rs.foldl (mc_year_update annual_spending ss_annual)
          ⟨st.balance, st.depleted⟩).failed) ∧
    (∀ (b0 monthly_spending ss_annual legacy_floor return_mean : ℚ)
      (ra la : ℤ) (rs : List ℚ),
      0 < b0 → 0 < monthly_spending * 12 - ss_annual → 1 ≤ ra →
      b0 ≤ ((la - ra : ℤ) : ℚ) * ((monthly_spending * 12 - ss_annual) / 2) →
      (la - ra).toNat ≤ rs.length →
      (∀ r ∈ rs, r = -(1/2)) →
      ∃ (ya : ℕ) (t : ℚ) (x : ℤ),
        simulate_period_outcome b0 rs la ra monthly_spending ss_annual
            legacy_floor return_mean =
          PeriodOutcome.simulated ya t false (some x) ∧ x ≠ 0) := by
  refine ⟨fun a s ra rs i st => bt_loop_matches_mc_fold a s ra rs i st, ?_⟩
  intro b0 ms ss floor mean ra la rs hb0 hw hra hbound hlen hall
  have hpos : 0 < la - ra := by
    by_contra hcon
    push_neg at hcon
    have hc : ((la - ra : ℤ) : ℚ) ≤ 0 := by exact_mod_cast hcon
    nlinarith
  have hif : ¬ (la - ra ≤ 0) := by omega
  have hNcast : (((la - ra).toNat : ℕ) : ℚ) = ((la - ra : ℤ) : ℚ) := by
    exact_mod_cast congrArg (fun z : ℤ => (z : ℚ))
      (Int.toNat_of_nonneg hpos.le)
  have hmodeled : rs.take (la - ra).toNat ++
      List.replicate ((la - ra).toNat - rs.length) mean =
      rs.take (la - ra).toNat := by
    rw [Nat.sub_eq_zero_of_le hlen, List.replicate_zero, List.append_nil]
  have htklen : (rs.take (la - ra).toNat).length = (la - ra).toNat := by
    rw [List.length_take]
    omega
  have hallt : ∀ r ∈ rs.take (la - ra).toNat, r = -(1/2) :=
    fun r hr => hall r (List.mem_of_mem_take hr)
  have hdep : (bt_loop (ms * 12) ss ra (rs.take (la - ra).toNat) 0
      ⟨b0, false, none⟩).depleted = true := by
    apply bt_loop_all_half_depletes (ms * 12) ss ra hw _ 0 _ hallt rfl hb0
    rw [htklen, hNcast]
    exact hbound
  obtain ⟨x, hx, hrx⟩ := bt_loop_depletion_age_set (ms * 12) ss ra
    (rs.take (la - ra).toNat) 0 ⟨b0, false, none⟩ rfl hdep
  refine ⟨min rs.length (la - ra).toNat,
    py_round (bt_loop (ms * 12) ss ra (rs.take (la - ra).toNat) 0
      ⟨b0, false, none⟩).balance 2, x, ?_, by omega⟩
  unfold simulate_period_outcome
  rw [if_neg hif]
  dsimp only
  rw [hmodeled, hdep, hx]
  simp

/-- Counterexample to C8 as stated: a plan with zero net withdrawal
(monthly spending 0) replayed against five straight years of −50% returns
keeps a positive balance forever — the outcome is a success with a null
depletion age, however long the sequence runs, so positive balance and
positive horizon alone do not force failure. -/
theorem backtest_zero_withdrawal_survives :
    (∀ r ∈ List.replicate 5 (-(1/2) : ℚ), r = -(1/2)) ∧
    simulate_period_outcome 1000 (List.replicate 5 (-(1/2))) 70 65 0 0 0 0 =
      PeriodOutcome.simulated 5 (125/4) true none := by
  constructor
  · exact fun r hr => List.eq_of_mem_replicate hr
  · norm_num [simulate_period_outcome, bt_loop, bt_year_update, py_round,
      round_half_even, List.replicate, List.take, List.foldl]

/-- Witness for C8 (amended): balance 1000, spending 100/month, no Social
Security, five years of −50% returns deplete the portfolio. -/
theorem backtest_fixed_crash_sequence_witness :
    (0:ℚ) < 1000 ∧ (0:ℚ) < 100 * 12 - 0 ∧ (1:ℤ) ≤ 65 ∧
    (1000:ℚ) ≤ ((70 - 65 : ℤ) : ℚ) * ((100 * 12 - 0) / 2) ∧
    ((70:ℤ) - 65).toNat ≤ (List.replicate 5 (-(1/2) : ℚ)).length ∧
    ∃ (ya : ℕ) (t : ℚ) (x : ℤ),
      simulate_period_outcome 1000 (List.replicate 5 (-(1/2))) 70 65 100 0 0
          0 =
        PeriodOutcome.simulated ya t false (some x) ∧ x ≠ 0 := by
  refine ⟨by norm_num, by norm_num, by norm_num, by norm_num, by decide, ?_⟩
  exact backtest_fixed_crash_sequence.2 1000 100 0 0 0 65 70
    (List.replicate 5 (-(1/2))) (by norm_num) (by norm_num) (by norm_num)
    (by norm_num) (by decide) (fun r hr => List.eq_of_mem_replicate hr)

/-! ## C10: Social Security applied in full or not at all -/

/-- Inputs with both Social Security reference amounts zeroed: a plan with
no Social Security income at all. -/
def with_no_ss (I : NormalizedInputs) : NormalizedInputs :=
  { I with social_security_age_67_annual := 0
           social_security_age_70_annual := 0 }

theorem mc_ss_annual_with_no_ss (I : NormalizedInputs) :
    mc_ss_annual (with_no_ss I) = 0 := by
  simp only [mc_ss_annual, with_no_ss]
  split_ifs <;> ring

/-- Modelled from the claim's words, for comparison with the source loop:
one backtest year with the claiming-age benefit applied unconditionally. -/
def bt_full_year_update (annual_spending ss_annual : ℚ) (retirement_age : ℤ)
    (i : ℕ) (st : BtState) (r : ℚ) : BtState :=
  let b := (st.balance - max (annual_spending - ss_annual) 0) * (1 + r)
  { balance := if b < 0 then 0 else b
    depleted := st.depleted || decide (b ≤ 0)
    depletion_age :=
      if b ≤ 0 ∧ st.depleted = false then some (retirement_age + (i : ℤ))
      else st.depletion_age }

/-- Modelled from the claim's words, for comparison with the source loop:
the backtest loop with the benefit applied in every simulated year. -/
def bt_loop_full_ss (annual_spending ss_annual : ℚ) (retirement_age : ℤ) :
    List ℚ → ℕ → BtState → BtState
  | [], _, st => st
  | r :: rest, i, st =>
      bt_loop_full_ss annual_spending ss_annual retirement_age rest (i + 1)
        (bt_full_year_update annual_spending ss_annual retirement_age i st r)

theorem bt_loop_eq_full_ss (a s : ℚ) (ra : ℤ) :
    ∀ (rs : List ℚ) (i : ℕ) (st : BtState),
      bt_loop a s ra rs i st = bt_loop_full_ss a s ra rs i st := by
  intro rs
  induction rs with
  | nil => intro i st; rfl
  | cons r rest ih =>
      intro i st
      have hup : bt_year_update a s ra i st r =
          bt_full_year_update a s ra i st r := by
        simp only [bt_year_update, bt_full_year_update]
        rw [if_pos (le_add_of_nonneg_right (Int.natCast_nonneg i))]
      simp only [bt_loop, bt_loop_full_ss, hup]
      exact ih (i + 1) _

/-- C10: for a retirement age strictly below the (clamped) claiming age the
Monte Carlo entries coincide with those of a plan whose Social Security
amounts are zero (no benefit ever starts mid-simulation), and the derive
stage's per-age analysis applies a Social Security income of exactly 0;
for a retirement age at or above the claiming age the Monte Carlo entry is
the simulation fed the full claiming-age benefit and the derive analysis
reports it; the backtest run at a recommended age below the claiming age
equals the zero-benefit run, and its year loop applies the passed benefit
unconditionally in every simulated year. -/
theorem ss_all_or_nothing_by_claiming_age (znorm : ℤ → ℕ → ℚ)
    (I : NormalizedInputs) (D : DerivedFields) (seed : ℤ) :
    (∀ age : ℤ, age < I.social_security_claiming_age →
      mc_base_entry znorm I D seed age =
        mc_base_entry znorm (with_no_ss I) D seed age ∧
      ∀ sc, mc_sensitivity_entry znorm I D seed sc age =
        mc_sensitivity_entry znorm (with_no_ss I) D seed sc age) ∧
    (∀ age : ℤ, I.social_security_claiming_age ≤ age →
      mc_base_entry znorm I D seed age =
        simulate_retirement_age znorm age
          ((D.projected_balances_base_case_real age).getD I.current_balance)
          I.return_mean I.return_std_dev I.longevity_age
          I.retirement_spending_monthly_real (mc_ss_annual I) I.legacy_floor
          I.simulation_count (seed + age) none) ∧
    (∀ age ∈ I.retirement_ages, age < I.social_security_claiming_age →
      ((compute_derived_fields I).withdrawal_analysis age).map
          WithdrawalEntry.social_security_annual = some 0 ∧
      ((compute_derived_fields I).withdrawal_analysis age).map
          WithdrawalEntry.portfolio_needed_after_ss =
        some (py_round (max (I.retirement_spending_monthly_real * 12) 0) 2)) ∧
    (∀ age ∈ I.retirement_ages, I.social_security_claiming_age ≤ age →
      ((compute_derived_fields I).withdrawal_analysis age).map
          WithdrawalEntry.social_security_annual =
        some (py_round (derive_ss_claim_annual I) 2)) ∧
    (∀ mc : MonteCarloResults,
      mc.assessment.recommended_retirement_age <
        I.social_security_claiming_age →
      run_backtest I D mc = run_backtest (with_no_ss I) D mc) ∧
    (∀ (a s : ℚ) (ra : ℤ) (rs : List ℚ) (i : ℕ) (st : BtState),
      bt_loop a s ra rs i st = bt_loop_full_ss a s ra rs i st) := by
  refine ⟨?_, ?_, ?_, ?_, ?_, bt_loop_eq_full_ss⟩
  · intro age hlt
    constructor
    · simp only [mc_base_entry, with_no_ss]
      rw [if_neg (not_le.mpr hlt), if_neg (not_le.mpr hlt)]
    · intro sc
      simp only [mc_sensitivity_entry, with_no_ss]
      rw [if_neg (not_le.mpr hlt), if_neg (not_le.mpr hlt)]
  · intro age hge
    simp only [mc_base_entry]
    rw [if_pos hge]
  · intro age hmem hlt
    simp only [compute_derived_fields]
    rw [if_pos hmem]
    rw [if_neg (not_le.mpr hlt)]
    constructor
    · simp only [Option.map_some']
      rw [py_round_zero]
    · simp only [Option.map_some']
      rw [sub_zero]
  · intro age hmem hge
    simp only [compute_derived_fields]
    rw [if_pos hmem]
    rw [if_pos hge]
    simp only [Option.map_some']
  · intro mc hlt
    simp only [run_backtest, with_no_ss]
    rw [if_neg (not_le.mpr hlt), if_neg (not_le.mpr hlt)]

/-- Witness for C10 at the sample inputs (claiming age 68): retiring at 65
the Monte Carlo entry coincides with the no-benefit plan's entry and the
derive analysis applies a Social Security income of exactly 0. -/
theorem ss_all_or_nothing_witness :
    ((65:ℤ) < sample_inputs.social_security_claiming_age ∧
      mc_base_entry znorm_zero sample_inputs sample_derived 42 65 =
        mc_base_entry znorm_zero (with_no_ss sample_inputs) sample_derived
          42 65) ∧
    ((65:ℤ) ∈ sample_inputs.retirement_ages ∧
      ((compute_derived_fields sample_inputs).withdrawal_analysis 65).map
        WithdrawalEntry.social_security_annual = some 0) := by
  have H := ss_all_or_nothing_by_claiming_age znorm_zero sample_inputs
    sample_derived 42
  exact ⟨⟨by decide, (H.1 65 (by decide)).1⟩,
    ⟨by decide, (H.2.2.1 65 (by decide) (by decide)).1⟩⟩
